import Mathlib

/-!
Tic-tac-toe (`src/scripts/script.js`): shallow embedding and properties.

The class `TicTacToe` keeps a grid of DOM buttons, the current player, the
winner and the number of filled cells.  A DOM button is embedded as the record
`Cell` (its `dataset.x`, `dataset.y` and `textContent`); the grid is a list of
rows of cells.  Reading a property of `undefined` raises a `TypeError` in
JavaScript, which the embedding renders as `Except.error JSError.typeError`;
the error aborts the listener and the embedding keeps no state after it.
The calls made to `winnerCallback` (registered by the page right after
construction, line 191) are returned as a list of their arguments.
-/

namespace TicTacToe

/-- The only run-time error the game logic can raise. -/
inductive JSError where
  | typeError
  deriving DecidableEq, Repr

/-- The values returned by the line checks: a string (the mark) or `false`. -/
inductive JSValue where
  | str (s : String)
  | bool (b : Bool)
  deriving DecidableEq, Repr

/-- JavaScript truthiness of a string or boolean. -/
def truthy : JSValue → Bool
  | .str s => s != ""
  | .bool b => b

/-- A grid button: `dataset.x`, `dataset.y` and `textContent`. -/
structure Cell where
  x : Nat
  y : Nat
  textContent : String
  deriving DecidableEq, Repr

abbrev Grid := List (List Cell)

deriving instance DecidableEq for Except

/-- The fields of a `TicTacToe` instance (lines 9-25). -/
structure Game where
  gridSize : Nat
  grid : Grid
  currentPlayer : String
  winner : Option String
  cellFilled : Nat
  deriving DecidableEq, Repr

/-- The expression `this.grid[row][col]` followed by a property access: a
`TypeError` when the row or the cell is `undefined`. -/
def getCell (grid : Grid) (row col : Nat) : Except JSError Cell :=
  match grid[row]? with
  | none => .error .typeError
  | some r =>
    match r[col]? with
    | none => .error .typeError
    | some c => .ok c

/-- The fragment built by `createGrid` (lines 43-61): buttons in row-major order,
each with its coordinates and empty text. -/
def createGrid (gridSize : Nat) : List Cell :=
  (List.range gridSize).flatMap fun i =>
    (List.range gridSize).map fun j => { x := i, y := j, textContent := "" }

/-- The method `populateGrid` (lines 28-40): row `i` is
`elements.slice(i * gridSize, i * gridSize + gridSize)`, where `elements` are
the children of the root, taken to be the buttons of `createGrid` alone. -/
def populateGrid (gridSize : Nat) : Grid :=
  let elements := createGrid gridSize
  (List.range gridSize).map fun i =>
    (elements.drop (i * gridSize)).take (i * gridSize + gridSize - i * gridSize)

/-- The constructor (lines 9-25). -/
def new (gridSize : Nat) : Game :=
  { gridSize := gridSize
    grid := populateGrid gridSize
    currentPlayer := "X"
    winner := none
    cellFilled := 0 }

/-- The method `changePlayer` (lines 103-105). -/
def changePlayer (s : Game) : Game :=
  { s with currentPlayer := if s.currentPlayer = "X" then "O" else "X" }

/-- The method `set` (lines 108-110): `this.grid[row][col].textContent = value`. -/
def set (grid : Grid) (row col : Nat) (value : String) : Except JSError Grid :=
  match grid[row]? with
  | none => .error .typeError
  | some r =>
    match r[col]? with
    | none => .error .typeError
    | some c => .ok (grid.set row (r.set col { c with textContent := value }))

/-- The method `isRowHasWinner` (lines 130-136). -/
def isRowHasWinner (grid : Grid) (row : Nat) : Except JSError JSValue :=
  match grid[row]? with
  | none => .error .typeError
  | some r =>
    match r[0]? with
    | none => .error .typeError
    | some c =>
      let value := c.textContent
      if r.all (fun v => v.textContent == value) then .ok (.str value)
      else .ok (.bool false)

/-- The callback of `every` in `isColHasWinner`, over the mapped column whose
entries may be `undefined`: stops at the first mismatch, raises on `undefined`. -/
def everyTextIs (value : String) : List (Option Cell) → Except JSError Bool
  | [] => .ok true
  | none :: _ => .error .typeError
  | some v :: rest =>
    if v.textContent = value then everyTextIs value rest else .ok false

/-- The method `isColHasWinner` (lines 139-147). -/
def isColHasWinner (grid : Grid) (col : Nat) : Except JSError JSValue := do
  let c ← getCell grid 0 col
  let value := c.textContent
  let ok ← everyTextIs value (grid.map fun row => row[col]?)
  if ok then pure (.str value) else pure (.bool false)

/-- The loop of `checkDiagonal` and `checkDiagonalReverse` over the remaining
indices `i`; `col i` is the column read in row `i`. -/
def diagonalLoop (grid : Grid) (value : String) (col : Nat → Nat) :
    List Nat → Except JSError JSValue
  | [] => .ok (.str value)
  | i :: rest => do
    let c ← getCell grid i (col i)
    if c.textContent ≠ value then pure (.bool false)
    else diagonalLoop grid value col rest

/-- The method `checkDiagonal` (lines 150-158). -/
def checkDiagonal (grid : Grid) : Except JSError JSValue := do
  let c ← getCell grid 0 0
  diagonalLoop grid c.textContent (fun i => i) (List.range grid.length)

/-- The method `checkDiagonalReverse` (lines 161-169). -/
def checkDiagonalReverse (grid : Grid) : Except JSError JSValue := do
  let c ← getCell grid 0 2
  diagonalLoop grid c.textContent (fun i => grid.length - 1 - i) (List.range grid.length)

/-- The operator `||` of JavaScript: the left operand when truthy, else the
right operand, which is evaluated only then. -/
def jsOr (a b : Except JSError JSValue) : Except JSError JSValue := do
  let v ← a
  if truthy v then pure v else b

/-- The method `checkWinner` (lines 113-127). -/
def checkWinner (grid : Grid) : Except JSError JSValue :=
  jsOr (jsOr (jsOr (jsOr (jsOr (jsOr (jsOr
    (isRowHasWinner grid 0)
    (isRowHasWinner grid 1))
    (isRowHasWinner grid 2))
    (isColHasWinner grid 0))
    (isColHasWinner grid 1))
    (isColHasWinner grid 2))
    (checkDiagonal grid))
    (checkDiagonalReverse grid)

/-- The method `play` (lines 76-100).  The second component lists the
arguments of the calls to `winnerCallback`. -/
def play (s : Game) (cell : Cell) : Except JSError (Game × List String) :=
  if cell.textContent = "" then do
    let g ← set s.grid cell.x cell.y s.currentPlayer
    let s1 : Game := { s with grid := g, cellFilled := s.cellFilled + 1 }
    let w ← checkWinner s1.grid
    if truthy w then
      let s2 : Game := { s1 with winner := some s1.currentPlayer }
      pure (s2, [s1.currentPlayer])
    else if s1.cellFilled = s1.gridSize * s1.gridSize then
      let s2 : Game := { s1 with winner := some "Draw" }
      pure (s2, ["Draw"])
    else
      pure (changePlayer s1, [])
  else pure (s, [])

/-- The click listener of `addEventListeners` (lines 64-73); `target` is the
clicked button, or `none` when the target is not a `.cell` element. -/
def onClick (s : Game) (target : Option Cell) : Except JSError (Game × List String) :=
  match target with
  | some cell => if s.winner = none then play s cell else pure (s, [])
  | none => pure (s, [])

/-- The method `reset` (lines 172-185). -/
def reset (s : Game) : Game :=
  { s with
    grid := s.grid.map fun row => row.map fun cell => { cell with textContent := "" }
    currentPlayer := "X"
    winner := none
    cellFilled := 0 }

/-- The user actions of the page: a click on the button at grid position
`(i, j)`, a click on the grid element outside every button, the reset button. -/
inductive Event where
  | clickCell (i j : Nat)
  | clickRoot
  | reset
  deriving DecidableEq, Repr

/-- The button at position `(i, j)` of the grid, if there is one. -/
def cellAt (grid : Grid) (i j : Nat) : Option Cell :=
  match grid[i]? with
  | none => none
  | some r => r[j]?

/-- One user action, dispatched to its listener (lines 66-72 and 205-208). -/
def step (s : Game) : Event → Except JSError (Game × List String)
  | .clickCell i j => onClick s (cellAt s.grid i j)
  | .clickRoot => onClick s none
  | .reset => pure (reset s, [])

/-- A sequence of user actions; the calls to `winnerCallback` accumulate. -/
def run (s : Game) : List Event → Except JSError (Game × List String)
  | [] => pure (s, [])
  | e :: es => do
    let (s1, out1) ← step s e
    let (s2, out2) ← run s1 es
    pure (s2, out1 ++ out2)

/-- The text at position `(r, c)`, if the cell exists. -/
def textAt (grid : Grid) (r c : Nat) : Option String :=
  (cellAt grid r c).map fun cell => cell.textContent

/-- The eight lines of the 3x3 board: rows, columns, diagonal, anti-diagonal. -/
def lines3 : List (List (Nat × Nat)) :=
  [ [(0, 0), (0, 1), (0, 2)], [(1, 0), (1, 1), (1, 2)], [(2, 0), (2, 1), (2, 2)],
    [(0, 0), (1, 0), (2, 0)], [(0, 1), (1, 1), (2, 1)], [(0, 2), (1, 2), (2, 2)],
    [(0, 0), (1, 1), (2, 2)], [(0, 2), (1, 1), (2, 0)] ]

/-- Every cell of the line holds the mark `m`. -/
def LineHolds (grid : Grid) (line : List (Nat × Nat)) (m : String) : Prop :=
  ∀ p ∈ line, textAt grid p.1 p.2 = some m

instance (grid : Grid) (line : List (Nat × Nat)) (m : String) :
    Decidable (LineHolds grid line m) := by
  unfold LineHolds; infer_instance

/-- The line holds equal non-empty marks. -/
def LineComplete (grid : Grid) (line : List (Nat × Nat)) : Prop :=
  ∃ m, m ≠ "" ∧ LineHolds grid line m

/-- A 3x3 board: three rows of three cells. -/
def IsBoard3 (grid : Grid) : Prop :=
  grid.length = 3 ∧ ∀ row ∈ grid, row.length = 3

instance (grid : Grid) : Decidable (IsBoard3 grid) := by
  unfold IsBoard3; infer_instance

/-- Every cell is empty, X or O. -/
def MarksOnly (grid : Grid) : Prop :=
  ∀ row ∈ grid, ∀ cell ∈ row,
    cell.textContent = "" ∨ cell.textContent = "X" ∨ cell.textContent = "O"

instance (grid : Grid) : Decidable (MarksOnly grid) := by
  unfold MarksOnly; infer_instance

/-- The result `r` of a check reports exactly the complete lines among `ls`:
it is a value, truthy only as the mark of a line of `ls`, and truthy when a
line of `ls` is complete. -/
def Detects (grid : Grid) (ls : List (List (Nat × Nat))) (r : Except JSError JSValue) : Prop :=
  ∃ v, r = .ok v ∧
    (truthy v = true → ∃ m, v = .str m ∧ m ≠ "" ∧ ∃ l ∈ ls, LineHolds grid l m) ∧
    ((∃ l ∈ ls, LineComplete grid l) → truthy v = true)

/-- The coordinates stored in the buttons of the grid, row by row. -/
def coords (grid : Grid) : List (List (Nat × Nat)) :=
  grid.map fun row => row.map fun cell => (cell.x, cell.y)

/-- The grid has `n` rows of `n` buttons and the button at position `(i, j)`
carries the coordinates `(i, j)`. -/
def HasShape (n : Nat) (grid : Grid) : Prop :=
  coords grid = (List.range n).map fun i => (List.range n).map fun j => (i, j)

instance (n : Nat) (grid : Grid) : Decidable (HasShape n grid) := by
  unfold HasShape; infer_instance

/-- The arguments of the calls to `winnerCallback` that a game in the state
`s` has seen: none while in progress, the winner once decided. -/
def winnerCalls (s : Game) : List String :=
  match s.winner with
  | none => []
  | some w => [w]

/-- The states of the 3x3 game that user actions can reach. -/
inductive Reachable : Game → Prop where
  | init : Reachable (new 3)
  | step {s s1 : Game} {out : List String} (e : Event) :
      Reachable s → step s e = .ok (s1, out) → Reachable s1

/-- The state `s` is reached from the fresh game of size `n` by `k` placements
on empty cells, each of which leaves the game in progress. -/
inductive Placements (n : Nat) : Nat → Game → Prop where
  | zero : Placements n 0 (new n)
  | succ {k i j : Nat} {s s1 : Game} {cell : Cell} {out : List String} :
      Placements n k s → s.winner = none → cellAt s.grid i j = some cell →
      cell.textContent = "" → step s (.clickCell i j) = .ok (s1, out) →
      s1.winner = none → Placements n (k + 1) s1

/-- The state in the middle of `play`, after the mark is written to the grid
and `cellFilled` is incremented (lines 80-82). -/
def placed (s : Game) (g : Grid) : Game :=
  { s with grid := g, cellFilled := s.cellFilled + 1 }

/-- The invariant of the reachable 3x3 states. -/
structure Inv (s : Game) : Prop where
  size : s.gridSize = 3
  shape : HasShape 3 s.grid
  marks : MarksOnly s.grid
  player : s.currentPlayer = "X" ∨ s.currentPlayer = "O"
  lineMark : ∀ l ∈ lines3, ∀ m, m ≠ "" → LineHolds s.grid l m →
    s.winner = some m ∧ m = s.currentPlayer
  winnerValue : s.winner = none ∨ s.winner = some s.currentPlayer ∨ s.winner = some "Draw"

/-- The spec's example game up to the move before the last: X at (0,0) and
(0,1), O at (1,0) and (1,1). -/
def rowGameMoves : List Event :=
  [.clickCell 0 0, .clickCell 1 0, .clickCell 0 1, .clickCell 1 1]

/-- The state after `rowGameMoves`. -/
def rowGameState : Game :=
  { gridSize := 3,
    grid := [[⟨0, 0, "X"⟩, ⟨0, 1, "X"⟩, ⟨0, 2, ""⟩], [⟨1, 0, "O"⟩, ⟨1, 1, "O"⟩, ⟨1, 2, ""⟩],
             [⟨2, 0, ""⟩, ⟨2, 1, ""⟩, ⟨2, 2, ""⟩]],
    currentPlayer := "X", winner := none, cellFilled := 4 }

/-- The state after `rowGameMoves` and the click on (0,2): X has won row 0. -/
def rowGameWon : Game :=
  { gridSize := 3,
    grid := [[⟨0, 0, "X"⟩, ⟨0, 1, "X"⟩, ⟨0, 2, "X"⟩], [⟨1, 0, "O"⟩, ⟨1, 1, "O"⟩, ⟨1, 2, ""⟩],
             [⟨2, 0, ""⟩, ⟨2, 1, ""⟩, ⟨2, 2, ""⟩]],
    currentPlayer := "X", winner := some "X", cellFilled := 5 }

/-- The state after the first move of a 3x3 game, X on (0,0). -/
def firstMoveState : Game :=
  { gridSize := 3,
    grid := [[⟨0, 0, "X"⟩, ⟨0, 1, ""⟩, ⟨0, 2, ""⟩], [⟨1, 0, ""⟩, ⟨1, 1, ""⟩, ⟨1, 2, ""⟩],
             [⟨2, 0, ""⟩, ⟨2, 1, ""⟩, ⟨2, 2, ""⟩]],
    currentPlayer := "O", winner := none, cellFilled := 1 }

/-- Eight moves of a game that the ninth move, on (2,2), ends in a draw. -/
def drawGameMoves : List Event :=
  [.clickCell 0 0, .clickCell 0 1, .clickCell 0 2, .clickCell 1 1, .clickCell 1 0,
   .clickCell 1 2, .clickCell 2 1, .clickCell 2 0]

/-- The state after `drawGameMoves`. -/
def drawGameState : Game :=
  { gridSize := 3,
    grid := [[⟨0, 0, "X"⟩, ⟨0, 1, "O"⟩, ⟨0, 2, "X"⟩], [⟨1, 0, "X"⟩, ⟨1, 1, "O"⟩, ⟨1, 2, "O"⟩],
             [⟨2, 0, "O"⟩, ⟨2, 1, "X"⟩, ⟨2, 2, ""⟩]],
    currentPlayer := "X", winner := none, cellFilled := 8 }

/-- The result `r` of a check over the lines `ls` is a value that is falsy when
no line of `ls` is complete, and is the mark of the first complete line of
`ls` otherwise. -/
def ReportsFirst (grid : Grid) (ls : List (List (Nat × Nat)))
    (r : Except JSError JSValue) : Prop :=
  ∃ v, r = .ok v ∧
    ((∀ l ∈ ls, ¬ LineComplete grid l) → truthy v = false) ∧
    ∀ pre l post, ls = pre ++ l :: post → (∀ k ∈ pre, ¬ LineComplete grid k) →
      ∀ m, m ≠ "" → LineHolds grid l m → v = .str m

instance (grid : Grid) (line : List (Nat × Nat)) : Decidable (LineComplete grid line) :=
  match line with
  | [] => isTrue ⟨"X", by decide, fun p hp => by cases hp⟩
  | p :: rest =>
    match h : textAt grid p.1 p.2 with
    | none => isFalse (by
        rintro ⟨m, _, hh⟩
        have h1 := hh p (by simp)
        rw [h] at h1
        cases h1)
    | some m =>
      if hm : m ≠ "" ∧ LineHolds grid (p :: rest) m then isTrue ⟨m, hm.1, hm.2⟩
      else isFalse (by
        rintro ⟨m1, h1, hh⟩
        have h2 := hh p (by simp)
        rw [h] at h2
        cases h2
        exact hm ⟨h1, hh⟩)

/-- A board whose first complete line is column 0, held by O. -/
def firstLineBoard : Grid :=
  [[⟨0, 0, "O"⟩, ⟨0, 1, "X"⟩, ⟨0, 2, "X"⟩], [⟨1, 0, "O"⟩, ⟨1, 1, "X"⟩, ⟨1, 2, ""⟩],
   [⟨2, 0, "O"⟩, ⟨2, 1, ""⟩, ⟨2, 2, "X"⟩]]

/-- The number of cells of the grid whose text satisfies `p`. -/
def countText (p : String → Bool) (grid : Grid) : Nat :=
  (grid.map fun row => row.countP fun cell => p cell.textContent).sum

/-- The counting part of the invariant of the reachable 3x3 states: the
counter, the balance of the two marks, and the agreement of `winner` with the
board. -/
structure Tally (s : Game) : Prop where
  filled : s.cellFilled = countText (fun t => t != "") s.grid
  balance : countText (fun t => t == "X") s.grid =
    countText (fun t => t == "O") s.grid +
      (if (s.winner = none ↔ s.currentPlayer = "X") then 0 else 1)
  progress : s.winner = none → s.cellFilled < 9
  decided : ∀ w, s.winner = some w →
    (w = s.currentPlayer ∧ ∃ l ∈ lines3, LineHolds s.grid l s.currentPlayer) ∨
    (w = "Draw" ∧ s.cellFilled = 9 ∧ ¬ ∃ l ∈ lines3, LineComplete s.grid l)

/-- Eight moves after which X, on (2,2), fills the last cell and completes the
diagonal. -/
def lastCellMoves : List Event :=
  [.clickCell 0 0, .clickCell 0 1, .clickCell 0 2, .clickCell 1 0, .clickCell 1 1,
   .clickCell 1 2, .clickCell 2 1, .clickCell 2 0]

/-- The state after `lastCellMoves`. -/
def lastCellState : Game :=
  { gridSize := 3,
    grid := [[⟨0, 0, "X"⟩, ⟨0, 1, "O"⟩, ⟨0, 2, "X"⟩], [⟨1, 0, "O"⟩, ⟨1, 1, "X"⟩, ⟨1, 2, "O"⟩],
             [⟨2, 0, "O"⟩, ⟨2, 1, "X"⟩, ⟨2, 2, ""⟩]],
    currentPlayer := "X", winner := none, cellFilled := 8 }

/-- The state after `lastCellMoves` and the click on (2,2): X has won. -/
def lastCellWon : Game :=
  { gridSize := 3,
    grid := [[⟨0, 0, "X"⟩, ⟨0, 1, "O"⟩, ⟨0, 2, "X"⟩], [⟨1, 0, "O"⟩, ⟨1, 1, "X"⟩, ⟨1, 2, "O"⟩],
             [⟨2, 0, "O"⟩, ⟨2, 1, "X"⟩, ⟨2, 2, "X"⟩]],
    currentPlayer := "X", winner := some "X", cellFilled := 9 }

/-! ## Win detection on a 3x3 board -/

theorem board3_eq {g : Grid} (h : IsBoard3 g) :
    ∃ a b c d e f x y z : Cell, g = [[a, b, c], [d, e, f], [x, y, z]] := by
  obtain ⟨hl, hr⟩ := h
  match g, hl with
  | [r0, r1, r2], _ =>
    have h0 := hr r0 (by simp)
    have h1 := hr r1 (by simp)
    have h2 := hr r2 (by simp)
    match r0, h0, r1, h1, r2, h2 with
    | [a, b, c], _, [d, e, f], _, [x, y, z], _ =>
      exact ⟨a, b, c, d, e, f, x, y, z, rfl⟩

theorem detects_jsOr {g : Grid} {ls1 ls2 : List (List (Nat × Nat))}
    {a b : Except JSError JSValue} (ha : Detects g ls1 a) (hb : Detects g ls2 b) :
    Detects g (ls1 ++ ls2) (jsOr a b) := by
  obtain ⟨va, rfl, ha1, ha2⟩ := ha
  obtain ⟨vb, rfl, hb1, hb2⟩ := hb
  by_cases hva : truthy va = true
  · refine ⟨va, by simp [jsOr, hva, bind, Except.bind, pure, Except.pure], ?_, fun _ => hva⟩
    intro _
    obtain ⟨m, hm, hne, l, hl, hh⟩ := ha1 hva
    exact ⟨m, hm, hne, l, List.mem_append_left _ hl, hh⟩
  · refine ⟨vb, by simp [jsOr, hva, bind, Except.bind, pure, Except.pure], ?_, ?_⟩
    · intro hvb
      obtain ⟨m, hm, hne, l, hl, hh⟩ := hb1 hvb
      exact ⟨m, hm, hne, l, List.mem_append_right _ hl, hh⟩
    · rintro ⟨l, hl, hc⟩
      rcases List.mem_append.1 hl with h | h
      · exact absurd (ha2 ⟨l, h, hc⟩) hva
      · exact hb2 ⟨l, h, hc⟩

theorem lineHolds_three (g : Grid) (p q r : Nat × Nat) (m : String) :
    LineHolds g [p, q, r] m ↔
      textAt g p.1 p.2 = some m ∧ textAt g q.1 q.2 = some m ∧ textAt g r.1 r.2 = some m := by
  simp [LineHolds]

theorem detects_row (a b c d e f x y z : Cell) :
    Detects [[a, b, c], [d, e, f], [x, y, z]] [[(0, 0), (0, 1), (0, 2)]]
      (isRowHasWinner [[a, b, c], [d, e, f], [x, y, z]] 0) ∧
    Detects [[a, b, c], [d, e, f], [x, y, z]] [[(1, 0), (1, 1), (1, 2)]]
      (isRowHasWinner [[a, b, c], [d, e, f], [x, y, z]] 1) ∧
    Detects [[a, b, c], [d, e, f], [x, y, z]] [[(2, 0), (2, 1), (2, 2)]]
      (isRowHasWinner [[a, b, c], [d, e, f], [x, y, z]] 2) := by
  refine ⟨?_, ?_, ?_⟩
  all_goals
    simp only [Detects, isRowHasWinner, LineComplete, lineHolds_three, List.mem_singleton,
      exists_eq_left]
    simp [textAt, cellAt]
    split_ifs with h
    · refine ⟨_, rfl, ?_, ?_⟩
      · intro ht
        simp [truthy] at ht
        simp [ht, h]
      · rintro m hm h1 h2 h3
        simp [truthy, h1, hm]
    · refine ⟨_, rfl, ?_, ?_⟩
      · simp [truthy]
      · rintro m hm h1 h2 h3
        exact absurd (by simp [h1, h2, h3]) h

theorem detects_col (a b c d e f x y z : Cell) :
    Detects [[a, b, c], [d, e, f], [x, y, z]] [[(0, 0), (1, 0), (2, 0)]]
      (isColHasWinner [[a, b, c], [d, e, f], [x, y, z]] 0) ∧
    Detects [[a, b, c], [d, e, f], [x, y, z]] [[(0, 1), (1, 1), (2, 1)]]
      (isColHasWinner [[a, b, c], [d, e, f], [x, y, z]] 1) ∧
    Detects [[a, b, c], [d, e, f], [x, y, z]] [[(0, 2), (1, 2), (2, 2)]]
      (isColHasWinner [[a, b, c], [d, e, f], [x, y, z]] 2) := by
  refine ⟨?_, ?_, ?_⟩
  all_goals
    simp only [Detects, LineComplete, lineHolds_three, List.mem_singleton, exists_eq_left]
    simp [isColHasWinner, getCell, everyTextIs, textAt, cellAt, bind, Except.bind, pure,
      Except.pure]
    split_ifs with h1 h2
    · refine ⟨_, rfl, ?_, ?_⟩
      · intro ht
        simp [truthy] at ht
        simp [ht, h1, h2]
      · rintro m hm k1 k2 k3
        simp [truthy, k1, hm]
    · refine ⟨_, rfl, ?_, ?_⟩
      · simp [truthy]
      · rintro m hm k1 k2 k3
        exact absurd (by simp [k1, k3]) h2
    · refine ⟨_, rfl, ?_, ?_⟩
      · simp [truthy]
      · rintro m hm k1 k2 k3
        exact absurd (by simp [k1, k2]) h1

theorem detects_diag (a b c d e f x y z : Cell) :
    Detects [[a, b, c], [d, e, f], [x, y, z]] [[(0, 0), (1, 1), (2, 2)]]
      (checkDiagonal [[a, b, c], [d, e, f], [x, y, z]]) ∧
    Detects [[a, b, c], [d, e, f], [x, y, z]] [[(0, 2), (1, 1), (2, 0)]]
      (checkDiagonalReverse [[a, b, c], [d, e, f], [x, y, z]]) := by
  refine ⟨?_, ?_⟩
  all_goals
    simp only [Detects, LineComplete, lineHolds_three, List.mem_singleton, exists_eq_left]
    simp [checkDiagonal, checkDiagonalReverse, getCell, diagonalLoop, textAt, cellAt, bind,
      Except.bind, pure, Except.pure, List.range_succ]
    split_ifs with h1 h2
    · refine ⟨_, rfl, ?_, ?_⟩
      · intro ht
        simp [truthy] at ht
        simp [ht, h1, h2]
      · rintro m hm k1 k2 k3
        simp [truthy, k1, hm]
    · refine ⟨_, rfl, ?_, ?_⟩
      · simp [truthy]
      · rintro m hm k1 k2 k3
        exact absurd (by simp [k1, k3]) h2
    · refine ⟨_, rfl, ?_, ?_⟩
      · simp [truthy]
      · rintro m hm k1 k2 k3
        exact absurd (by simp [k1, k2]) h1

theorem detects_checkWinner {g : Grid} (h : IsBoard3 g) : Detects g lines3 (checkWinner g) := by
  obtain ⟨a, b, c, d, e, f, x, y, z, rfl⟩ := board3_eq h
  obtain ⟨r0, r1, r2⟩ := detects_row a b c d e f x y z
  obtain ⟨c0, c1, c2⟩ := detects_col a b c d e f x y z
  obtain ⟨d0, d1⟩ := detects_diag a b c d e f x y z
  exact detects_jsOr (detects_jsOr (detects_jsOr (detects_jsOr (detects_jsOr (detects_jsOr
    (detects_jsOr r0 r1) r2) c0) c1) c2) d0) d1

/-- C1: on every 3x3 board, `checkWinner` returns a value, and that value is
truthy if and only if one of the eight lines holds three equal non-empty
marks (so a line of three empty cells is never a win). -/
theorem checkWinner_truthy_iff_line (g : Grid) (h : IsBoard3 g) :
    ∃ v, checkWinner g = .ok v ∧ (truthy v = true ↔ ∃ l ∈ lines3, LineComplete g l) := by
  obtain ⟨v, hv, h1, h2⟩ := detects_checkWinner h
  refine ⟨v, hv, fun ht => ?_, h2⟩
  obtain ⟨m, _, hne, l, hl, hh⟩ := h1 ht
  exact ⟨l, hl, m, hne, hh⟩

theorem checkWinner_truthy_iff_line_witness :
    IsBoard3 (new 3).grid ∧
    ∃ v, checkWinner (new 3).grid = .ok v ∧
      (truthy v = true ↔ ∃ l ∈ lines3, LineComplete (new 3).grid l) :=
  ⟨by decide, checkWinner_truthy_iff_line (new 3).grid (by decide)⟩

/-! ## Construction and reset -/

theorem flatten_drop_take {α : Type} (n : Nat) :
    ∀ (L : List (List α)) (i : Nat), (∀ l ∈ L, l.length = n) →
      ((L.flatten.drop (i * n)).take n) = (L[i]?).getD [] := by
  intro L
  induction L with
  | nil => intro i _; simp
  | cons l L ih =>
    intro i h
    have hl : l.length = n := h l (by simp)
    cases i with
    | zero => simp [hl.symm]
    | succ i =>
      have : (i + 1) * n = l.length + i * n := by rw [hl]; ring
      simp only [List.flatten_cons, this, List.getElem?_cons_succ]
      rw [← List.drop_drop, List.drop_left]
      exact ih i (fun l1 h1 => h l1 (by simp [h1]))

theorem populateGrid_eq (n : Nat) :
    populateGrid n =
      (List.range n).map fun i => (List.range n).map fun j => ({ x := i, y := j, textContent := "" } : Cell) := by
  unfold populateGrid createGrid
  apply List.map_congr_left
  intro i hi
  have hi : i < n := List.mem_range.1 hi
  rw [List.flatMap, Nat.add_sub_cancel_left,
    flatten_drop_take n _ i (by simp)]
  simp [hi]

/-! ## The effect of `set` -/

theorem set_self_of_getElem? {α : Type} (l : List α) (i : Nat) (a : α) (h : l[i]? = some a) :
    l.set i a = l := by
  apply List.ext_getElem?
  intro k
  rw [List.getElem?_set']
  split_ifs with hik
  · subst hik; simp [h]
  · rfl

theorem set_spec {g : Grid} {i j : Nat} {c : Cell} (h : cellAt g i j = some c) (v : String) :
    ∃ g1, set g i j v = .ok g1 ∧ coords g1 = coords g ∧
      (∀ r k, textAt g1 r k = if r = i ∧ k = j then some v else textAt g r k) ∧
      (∀ row ∈ g1, ∀ cell ∈ row, (∃ row0 ∈ g, cell ∈ row0) ∨ cell.textContent = v) := by
  unfold cellAt at h
  cases hrow : g[i]? with
  | none => simp [hrow] at h
  | some row =>
    simp only [hrow] at h
    have hi : i < g.length := (List.getElem?_eq_some.1 hrow).1
    have hj : j < row.length := (List.getElem?_eq_some.1 h).1
    refine ⟨g.set i (row.set j { c with textContent := v }), by simp [set, hrow, h], ?_, ?_, ?_⟩
    · unfold coords
      rw [List.map_set, List.map_set]
      apply set_self_of_getElem?
      rw [List.getElem?_map, hrow, Option.map_some']
      congr 1
      symm
      apply set_self_of_getElem?
      rw [List.getElem?_map, h, Option.map_some']
    · intro r k
      unfold textAt cellAt
      rw [List.getElem?_set]
      by_cases hr : i = r
      · subst hr
        simp only [true_and, hi, if_true, hrow]
        rw [List.getElem?_set]
        by_cases hk : j = k
        · subst hk; simp [hj]
        · have hk2 : ¬ k = j := fun e => hk e.symm
          simp [hk, hk2]
      · have hr2 : ¬ r = i := fun e => hr e.symm
        simp [hr, hr2]
    · intro row1 hrow1 cell hcell
      rcases List.mem_or_eq_of_mem_set hrow1 with h1 | h1
      · exact Or.inl ⟨row1, h1, hcell⟩
      · subst h1
        rcases List.mem_or_eq_of_mem_set hcell with h2 | h2
        · exact Or.inl ⟨row, List.getElem?_mem hrow, h2⟩
        · exact Or.inr (by rw [h2])

/-! ## Shape of the grid -/

theorem shape_cellAt {n : Nat} {g : Grid} (h : HasShape n g) {i j : Nat} {c : Cell}
    (hc : cellAt g i j = some c) : c.x = i ∧ c.y = j := by
  unfold cellAt at hc
  cases hrow : g[i]? with
  | none => simp [hrow] at hc
  | some row =>
    simp only [hrow] at hc
    have h1 : (coords g)[i]? = some (row.map fun cell => (cell.x, cell.y)) := by
      simp [coords, hrow]
    rw [h] at h1
    have hi : i < n := by
      have := (List.getElem?_eq_some.1 h1).1
      simpa using this
    simp only [List.getElem?_map, List.getElem?_range hi, Option.map_some',
      Option.some.injEq] at h1
    have h2 : (row.map fun cell => (cell.x, cell.y))[j]? = some (c.x, c.y) := by
      simp [hc]
    rw [← h1] at h2
    have hj : j < n := by
      have := (List.getElem?_eq_some.1 h2).1
      simpa using this
    simp only [List.getElem?_map, List.getElem?_range hj, Option.map_some',
      Option.some.injEq, Prod.mk.injEq] at h2
    exact ⟨h2.1.symm, h2.2.symm⟩

theorem shape_isBoard3 {g : Grid} (h : HasShape 3 g) : IsBoard3 g := by
  constructor
  · have := congrArg List.length h
    simpa [coords] using this
  · intro row hrow
    have h1 : (row.map fun cell => (cell.x, cell.y)) ∈ coords g :=
      List.mem_map_of_mem _ hrow
    rw [h] at h1
    obtain ⟨i, _, hi⟩ := List.mem_map.1 h1
    have := congrArg List.length hi
    simpa using this.symm

theorem lines3_nonempty : ∀ l ∈ lines3, ∃ p, p ∈ l := by
  intro l hl
  simp only [lines3, List.mem_cons, List.mem_singleton, List.not_mem_nil, or_false] at hl
  rcases hl with rfl | rfl | rfl | rfl | rfl | rfl | rfl | rfl <;> exact ⟨_, List.mem_cons_self _ _⟩

/-! ## Reset -/

theorem reset_coords (s : Game) : coords (reset s).grid = coords s.grid := by
  simp [reset, coords, Function.comp_def]

theorem reset_textAt (s : Game) (r k : Nat) (t : String)
    (h : textAt (reset s).grid r k = some t) : t = "" := by
  unfold textAt cellAt reset at h
  simp only [List.getElem?_map] at h
  cases hrow : s.grid[r]? with
  | none => simp [hrow] at h
  | some row =>
    simp only [hrow, Option.map_some', List.getElem?_map] at h
    cases hc : row[k]? with
    | none => simp [hc] at h
    | some c => simp [hc] at h; exact h.symm

theorem reset_eq_new (n : Nat) (s : Game) (hn : s.gridSize = n) (h : HasShape n s.grid) :
    reset s = new n := by
  have hg : (reset s).grid = (new n).grid := by
    have h1 : (reset s).grid =
        (coords s.grid).map fun row => row.map fun p => ({ x := p.1, y := p.2, textContent := "" } : Cell) := by
      simp [reset, coords, Function.comp_def]
    rw [h1, h]
    simp [new, populateGrid_eq, Function.comp_def]
  cases s
  simp only [reset, new, Game.mk.injEq] at hg ⊢
  exact ⟨hn, hg, trivial, trivial, trivial⟩

/-- C9: from every state whose grid has the shape the constructor gives it for
size `n`, whatever the texts and the other fields, `reset` yields exactly the
freshly constructed game of size `n`; and `reset` is idempotent on all states. -/
theorem reset_yields_fresh_state (n : Nat) (s : Game) (hn : s.gridSize = n)
    (h : HasShape n s.grid) :
    reset s = new n ∧
    (∀ r k t, textAt (reset s).grid r k = some t → t = "") ∧
    (reset s).currentPlayer = "X" ∧ (reset s).winner = none ∧ (reset s).cellFilled = 0 ∧
    reset (reset s) = reset s := by
  refine ⟨reset_eq_new n s hn h, reset_textAt s, rfl, rfl, rfl, ?_⟩
  simp [reset, Function.comp_def]

theorem reset_yields_fresh_state_witness :
    rowGameWon.gridSize = 3 ∧ HasShape 3 rowGameWon.grid ∧
    reset rowGameWon = new 3 ∧
    (∀ r k t, textAt (reset rowGameWon).grid r k = some t → t = "") ∧
    (reset rowGameWon).currentPlayer = "X" ∧ (reset rowGameWon).winner = none ∧
    (reset rowGameWon).cellFilled = 0 ∧
    reset (reset rowGameWon) = reset rowGameWon :=
  ⟨rfl, by decide, reset_yields_fresh_state 3 rowGameWon rfl (by decide)⟩

/-! ## One placement -/

theorem play_occupied (s : Game) (cell : Cell) (h : cell.textContent ≠ "") :
    play s cell = .ok (s, []) := by
  simp [play, h, pure, Except.pure]

theorem play_empty {s : Game} (hs : Inv s) (hw : s.winner = none) {i j : Nat} {c : Cell}
    (hc : cellAt s.grid i j = some c) (he : c.textContent = "") :
    ∃ g1 w, set s.grid i j s.currentPlayer = .ok g1 ∧ checkWinner g1 = .ok w ∧
      HasShape 3 g1 ∧ MarksOnly g1 ∧
      (∀ r k, textAt g1 r k = if r = i ∧ k = j then some s.currentPlayer else textAt s.grid r k) ∧
      (truthy w = true ↔ ∃ l ∈ lines3, LineComplete g1 l) ∧
      (truthy w = true → w = .str s.currentPlayer) ∧
      (∀ l ∈ lines3, ∀ m, m ≠ "" → LineHolds g1 l m → m = s.currentPlayer) ∧
      play s c = .ok
        (if truthy w = true then
          ({ placed s g1 with winner := some s.currentPlayer }, [s.currentPlayer])
        else if s.cellFilled + 1 = 9 then
          ({ placed s g1 with winner := some "Draw" }, ["Draw"])
        else (changePlayer (placed s g1), [])) := by
  obtain ⟨hx, hy⟩ := shape_cellAt hs.shape hc
  obtain ⟨g1, hset, hco, htext, hmarks⟩ := set_spec hc s.currentPlayer
  have hshape : HasShape 3 g1 := by
    unfold HasShape; rw [hco]; exact hs.shape
  obtain ⟨w, hw1, hw2, hw3⟩ := detects_checkWinner (shape_isBoard3 hshape)
  have hlines : ∀ l ∈ lines3, ∀ m, m ≠ "" → LineHolds g1 l m → m = s.currentPlayer := by
    intro l hl m hm hh
    by_cases hmem : (i, j) ∈ l
    · have h1 := hh (i, j) hmem
      rw [htext] at h1
      simpa using h1.symm
    · have h2 : LineHolds s.grid l m := by
        intro p hp
        have h1 := hh p hp
        rw [htext] at h1
        have hne : ¬ (p.1 = i ∧ p.2 = j) := by
          rintro ⟨e1, e2⟩
          apply hmem
          have : p = (i, j) := Prod.ext e1 e2
          rw [← this]; exact hp
        rw [if_neg hne] at h1
        exact h1
      have h3 := (hs.lineMark l hl m hm h2).1
      rw [hw] at h3
      cases h3
  refine ⟨g1, w, hset, hw1, hshape, ?_, htext, ?_, ?_, hlines, ?_⟩
  · intro row hrow cell hcell
    rcases hmarks row hrow cell hcell with ⟨row0, h0, h1⟩ | h1
    · exact hs.marks row0 h0 cell h1
    · rw [h1]; exact Or.inr hs.player
  · refine ⟨fun ht => ?_, hw3⟩
    obtain ⟨m, _, hne, l, hl, hh⟩ := hw2 ht
    exact ⟨l, hl, m, hne, hh⟩
  · intro ht
    obtain ⟨m, hm, hne, l, hl, hh⟩ := hw2 ht
    rw [hm, hlines l hl m hne hh]
  · simp only [play, he, if_true, hx, hy, hset, bind, Except.bind, hw1, hs.size, placed]
    split_ifs <;> rfl

theorem inv_new : Inv (new 3) := by
  refine ⟨rfl, by decide, by decide, Or.inl rfl, ?_, Or.inl rfl⟩
  intro l hl m hm hh
  obtain ⟨p, hp⟩ := lines3_nonempty l hl
  have h1 := hh p hp
  have : (new 3) = reset (new 3) := by decide
  rw [this] at h1
  exact absurd (reset_textAt _ _ _ _ h1) hm

theorem inv_reset {s : Game} (hs : Inv s) : Inv (reset s) := by
  refine ⟨hs.size, ?_, ?_, Or.inl rfl, ?_, Or.inl rfl⟩
  · unfold HasShape; rw [reset_coords]; exact hs.shape
  · intro row hrow cell hcell
    simp only [reset, List.mem_map] at hrow
    obtain ⟨row0, _, rfl⟩ := hrow
    simp only [List.mem_map] at hcell
    obtain ⟨c0, _, rfl⟩ := hcell
    exact Or.inl rfl
  · intro l hl m hm hh
    obtain ⟨p, hp⟩ := lines3_nonempty l hl
    exact absurd (reset_textAt _ _ _ _ (hh p hp)) hm

theorem play_inv {s : Game} (hs : Inv s) (hw : s.winner = none) {i j : Nat} {c : Cell}
    (hc : cellAt s.grid i j = some c) :
    ∃ s1 out, play s c = .ok (s1, out) ∧ Inv s1 ∧ out = winnerCalls s1 := by
  by_cases he : c.textContent = ""
  · obtain ⟨g1, w, _, _, hshape, hmarks, _, hiff, _, hlines, hplay⟩ := play_empty hs hw hc he
    have hnone : ¬ truthy w = true → ∀ l ∈ lines3, ∀ m, m ≠ "" → LineHolds g1 l m → False :=
      fun hn l hl m hm hh => hn (hiff.2 ⟨l, hl, m, hm, hh⟩)
    by_cases ht : truthy w = true
    · rw [if_pos ht] at hplay
      refine ⟨_, _, hplay, ⟨hs.size, hshape, hmarks, hs.player, ?_, Or.inr (Or.inl rfl)⟩, rfl⟩
      intro l hl m hm hh
      exact ⟨by simp [placed, hlines l hl m hm hh], hlines l hl m hm hh⟩
    · rw [if_neg ht] at hplay
      by_cases h9 : s.cellFilled + 1 = 9
      · rw [if_pos h9] at hplay
        refine ⟨_, _, hplay, ⟨hs.size, hshape, hmarks, hs.player, ?_, Or.inr (Or.inr rfl)⟩,
          rfl⟩
        intro l hl m hm hh
        exact (hnone ht l hl m hm hh).elim
      · rw [if_neg h9] at hplay
        refine ⟨_, _, hplay, ⟨hs.size, hshape, hmarks, ?_, ?_, Or.inl hw⟩, ?_⟩
        · rcases hs.player with h | h <;> simp [changePlayer, placed, h]
        · intro l hl m hm hh
          exact (hnone ht l hl m hm hh).elim
        · simp [winnerCalls, changePlayer, placed, hw]
  · exact ⟨s, [], play_occupied s c he, hs, by simp [winnerCalls, hw]⟩

theorem step_inv {s : Game} (hs : Inv s) (e : Event) :
    ∃ s1 out, step s e = .ok (s1, out) ∧ Inv s1 ∧
      (e = .reset → out = []) ∧
      (e ≠ .reset → out = if s.winner = none then winnerCalls s1 else []) ∧
      (e ≠ .reset → s.winner ≠ none → s1 = s) := by
  have hsame : ∃ s1 out, (.ok (s, []) : Except JSError (Game × List String)) = .ok (s1, out) ∧
      Inv s1 ∧ (out = if s.winner = none then winnerCalls s1 else []) ∧ s1 = s := by
    refine ⟨s, [], rfl, hs, ?_, rfl⟩
    by_cases hw : s.winner = none <;> simp [winnerCalls, hw]
  cases e with
  | reset => exact ⟨reset s, [], rfl, inv_reset hs, fun _ => rfl, by simp, by simp⟩
  | clickRoot =>
    obtain ⟨s1, out, h1, h2, h3, h4⟩ := hsame
    exact ⟨s1, out, h1, h2, by simp, fun _ => h3, fun _ _ => h4⟩
  | clickCell i j =>
    simp only [step]
    cases hc : cellAt s.grid i j with
    | none =>
      obtain ⟨s1, out, h1, h2, h3, h4⟩ := hsame
      exact ⟨s1, out, h1, h2, by simp, fun _ => h3, fun _ _ => h4⟩
    | some c =>
      by_cases hw : s.winner = none
      · obtain ⟨s1, out, h1, h2, h3⟩ := play_inv hs hw hc
        refine ⟨s1, out, by simp [onClick, hw, h1], h2, by simp, fun _ => by simp [hw, h3],
          fun _ h => absurd hw h⟩
      · obtain ⟨s1, out, h1, h2, h3, h4⟩ := hsame
        exact ⟨s1, out, by simp [onClick, hw, pure, Except.pure, ← h1], h2, by simp,
          fun _ => h3, fun _ _ => h4⟩

theorem reachable_inv {s : Game} (h : Reachable s) : Inv s := by
  induction h with
  | init => exact inv_new
  | step e _ hstep ih =>
    obtain ⟨s1, out, h1, h2, _⟩ := step_inv ih e
    rw [h1] at hstep
    cases hstep
    exact h2

theorem run_inv {s : Game} (hs : Inv s) (es : List Event) (hes : ∀ e ∈ es, e ≠ Event.reset) :
    ∃ s1 calls, run s es = .ok (s1, calls) ∧ Inv s1 ∧
      winnerCalls s ++ calls = winnerCalls s1 := by
  induction es generalizing s with
  | nil => exact ⟨s, [], rfl, hs, by simp⟩
  | cons e es ih =>
    have he : e ≠ Event.reset := hes e (by simp)
    obtain ⟨s1, out, h1, h2, _, h3, h4⟩ := step_inv hs e
    obtain ⟨s2, calls, k1, k2, k3⟩ := ih h2 (fun e1 h => hes e1 (by simp [h]))
    refine ⟨s2, out ++ calls, by simp [run, h1, k1, bind, Except.bind, pure, Except.pure],
      k2, ?_⟩
    rw [← k3, h3 he]
    by_cases hw : s.winner = none
    · simp [winnerCalls, hw]
    · rw [h4 he hw]; simp [hw]

theorem run_reachable {s : Game} (hs : Reachable s) :
    ∀ (es : List Event) (s1 : Game) (calls : List String),
      run s es = .ok (s1, calls) → Reachable s1 := by
  intro es
  induction es generalizing s with
  | nil =>
    intro s1 calls h
    simp only [run, pure, Except.pure, Except.ok.injEq, Prod.mk.injEq] at h
    rw [← h.1]; exact hs
  | cons e es ih =>
    intro s1 calls h
    simp only [run, bind, Except.bind] at h
    cases h1 : step s e with
    | error err => simp [h1] at h
    | ok r =>
      obtain ⟨s2, out⟩ := r
      simp only [h1] at h
      cases h2 : run s2 es with
      | error err => simp [h2] at h
      | ok r2 =>
        obtain ⟨s3, out2⟩ := r2
        simp only [h2, pure, Except.pure, Except.ok.injEq, Prod.mk.injEq] at h
        rw [← h.1]
        exact ih (Reachable.step e hs h1) s3 out2 h2

/-! ## Grids of another size -/

/-- C2 (the code at a failing input): on the 4x4 game, after X has completed
row 3 by the clicks below, `checkWinner` returns `false` and the game goes on
with no call to the callback; likewise after X has completed the 4x4
anti-diagonal. -/
theorem checkWinner_misses_lines_of_size4 :
    run (new 4) [.clickCell 3 0, .clickCell 0 0, .clickCell 3 1, .clickCell 0 1,
      .clickCell 3 2, .clickCell 1 0, .clickCell 3 3] = .ok (
      { gridSize := 4,
        grid := [[⟨0, 0, "O"⟩, ⟨0, 1, "O"⟩, ⟨0, 2, ""⟩, ⟨0, 3, ""⟩],
                 [⟨1, 0, "O"⟩, ⟨1, 1, ""⟩, ⟨1, 2, ""⟩, ⟨1, 3, ""⟩],
                 [⟨2, 0, ""⟩, ⟨2, 1, ""⟩, ⟨2, 2, ""⟩, ⟨2, 3, ""⟩],
                 [⟨3, 0, "X"⟩, ⟨3, 1, "X"⟩, ⟨3, 2, "X"⟩, ⟨3, 3, "X"⟩]],
        currentPlayer := "O", winner := none, cellFilled := 7 }, []) ∧
    checkWinner
      [[⟨0, 0, "O"⟩, ⟨0, 1, "O"⟩, ⟨0, 2, ""⟩, ⟨0, 3, ""⟩],
       [⟨1, 0, "O"⟩, ⟨1, 1, ""⟩, ⟨1, 2, ""⟩, ⟨1, 3, ""⟩],
       [⟨2, 0, ""⟩, ⟨2, 1, ""⟩, ⟨2, 2, ""⟩, ⟨2, 3, ""⟩],
       [⟨3, 0, "X"⟩, ⟨3, 1, "X"⟩, ⟨3, 2, "X"⟩, ⟨3, 3, "X"⟩]] = .ok (.bool false) ∧
    run (new 4) [.clickCell 0 3, .clickCell 0 0, .clickCell 1 2, .clickCell 0 1,
      .clickCell 2 1, .clickCell 1 0, .clickCell 3 0] = .ok (
      { gridSize := 4,
        grid := [[⟨0, 0, "O"⟩, ⟨0, 1, "O"⟩, ⟨0, 2, ""⟩, ⟨0, 3, "X"⟩],
                 [⟨1, 0, "O"⟩, ⟨1, 1, ""⟩, ⟨1, 2, "X"⟩, ⟨1, 3, ""⟩],
                 [⟨2, 0, ""⟩, ⟨2, 1, "X"⟩, ⟨2, 2, ""⟩, ⟨2, 3, ""⟩],
                 [⟨3, 0, "X"⟩, ⟨3, 1, ""⟩, ⟨3, 2, ""⟩, ⟨3, 3, ""⟩]],
        currentPlayer := "O", winner := none, cellFilled := 7 }, []) := by
  refine ⟨?_, ?_, ?_⟩ <;> decide

/-! ## Ignored clicks -/

/-- C3: `play` on a cell whose text is X or O returns the state unchanged
(cellFilled, currentPlayer, winner and every cell) and calls the callback
not at all. -/
theorem play_on_occupied_cell_is_noop (s : Game) (cell : Cell)
    (h : cell.textContent = "X" ∨ cell.textContent = "O") :
    play s cell = .ok (s, []) := by
  apply play_occupied
  rcases h with h | h <;> rw [h] <;> decide

theorem play_on_occupied_cell_is_noop_witness :
    ((⟨0, 1, "X"⟩ : Cell).textContent = "X" ∨ (⟨0, 1, "X"⟩ : Cell).textContent = "O") ∧
    play rowGameState ⟨0, 1, "X"⟩ = .ok (rowGameState, []) :=
  ⟨by decide, play_on_occupied_cell_is_noop rowGameState ⟨0, 1, "X"⟩ (by decide)⟩

/-- C4: once `winner` is not null, a click dispatched through the click
listener, on whatever target (an empty cell included), leaves the whole state
unchanged and calls the callback not at all. -/
theorem click_after_game_over_is_noop (s : Game) (h : s.winner ≠ none) :
    (∀ target : Option Cell, onClick s target = .ok (s, [])) ∧
    (∀ i j : Nat, step s (.clickCell i j) = .ok (s, [])) := by
  have h1 : ∀ target : Option Cell, onClick s target = .ok (s, []) := by
    intro target
    cases target <;> simp [onClick, h, pure, Except.pure]
  exact ⟨h1, fun i j => h1 _⟩

theorem click_after_game_over_is_noop_witness :
    rowGameWon.winner ≠ none ∧
    (∀ target : Option Cell, onClick rowGameWon target = .ok (rowGameWon, [])) ∧
    (∀ i j : Nat, step rowGameWon (.clickCell i j) = .ok (rowGameWon, [])) :=
  ⟨by decide, click_after_game_over_is_noop rowGameWon (by decide)⟩

/-! ## Example games -/

theorem rowGameState_run : run (new 3) rowGameMoves = .ok (rowGameState, []) := by decide

theorem rowGameState_reachable : Reachable rowGameState :=
  run_reachable Reachable.init _ _ _ rowGameState_run

theorem drawGameState_run : run (new 3) drawGameMoves = .ok (drawGameState, []) := by decide

theorem drawGameState_reachable : Reachable drawGameState :=
  run_reachable Reachable.init _ _ _ drawGameState_run

/-! ## Wins, draws and turns -/

/-- C5: in a reachable 3x3 state with `winner` null, when writing
currentPlayer's mark to an empty cell completes a line, `checkWinner` returns
that mark, and `play` (also through the click listener) sets `winner` to
currentPlayer, calls the callback once with it and leaves currentPlayer as it
is; and the spec's example game ends with winner X after the third X move. -/
theorem play_records_win (s : Game) (hr : Reachable s) (hw : s.winner = none)
    (i j : Nat) (c : Cell) (hc : cellAt s.grid i j = some c) (he : c.textContent = "")
    (g1 : Grid) (hset : set s.grid c.x c.y s.currentPlayer = .ok g1)
    (hline : ∃ l ∈ lines3, LineComplete g1 l) :
    checkWinner g1 = .ok (.str s.currentPlayer) ∧
    play s c =
      .ok ({ placed s g1 with winner := some s.currentPlayer }, [s.currentPlayer]) ∧
    step s (.clickCell i j) =
      .ok ({ placed s g1 with winner := some s.currentPlayer }, [s.currentPlayer]) ∧
    run (new 3) (rowGameMoves ++ [.clickCell 0 2]) = .ok (rowGameWon, ["X"]) ∧
    rowGameWon.winner = some "X" := by
  have hs := reachable_inv hr
  obtain ⟨hx, hy⟩ := shape_cellAt hs.shape hc
  obtain ⟨g2, w, h1, h2, _, _, _, hiff, hstr, _, hplay⟩ := play_empty hs hw hc he
  rw [hx, hy, h1] at hset
  cases hset
  have ht : truthy w = true := hiff.2 hline
  rw [if_pos ht] at hplay
  refine ⟨by rw [h2, hstr ht], hplay, ?_, by decide, rfl⟩
  simp only [step, hc, onClick, hw, if_true]
  exact hplay

theorem play_records_win_witness :
    Reachable rowGameState ∧ rowGameState.winner = none ∧
    cellAt rowGameState.grid 0 2 = some ⟨0, 2, ""⟩ ∧
    set rowGameState.grid 0 2 rowGameState.currentPlayer = .ok rowGameWon.grid ∧
    (∃ l ∈ lines3, LineComplete rowGameWon.grid l) ∧
    checkWinner rowGameWon.grid = .ok (.str "X") ∧
    play rowGameState ⟨0, 2, ""⟩ = .ok (rowGameWon, ["X"]) :=
  have h := play_records_win rowGameState rowGameState_reachable rfl 0 2 ⟨0, 2, ""⟩
    (by decide) rfl rowGameWon.grid (by decide)
    ⟨[(0, 0), (0, 1), (0, 2)], by decide, "X", by decide, by decide⟩
  ⟨rowGameState_reachable, rfl, by decide, by decide,
    ⟨[(0, 0), (0, 1), (0, 2)], by decide, "X", by decide, by decide⟩, h.1, h.2.1⟩

/-- C6: in every reachable 3x3 state two completed lines hold the same mark,
and a completed line holds the recorded winner, which is currentPlayer; and
after a placement from an in-progress state, a truthy result of `checkWinner`
is currentPlayer's mark, every completed line holds that mark, and it is the
winner that `play` records. -/
theorem completed_line_holds_currentPlayer (s : Game) (hr : Reachable s) :
    (∀ l1 ∈ lines3, ∀ l2 ∈ lines3, ∀ m1 m2, m1 ≠ "" → m2 ≠ "" →
      LineHolds s.grid l1 m1 → LineHolds s.grid l2 m2 → m1 = m2) ∧
    (∀ l ∈ lines3, ∀ m, m ≠ "" → LineHolds s.grid l m →
      s.winner = some m ∧ m = s.currentPlayer) ∧
    (∀ i j c, s.winner = none → cellAt s.grid i j = some c → c.textContent = "" →
      ∃ g1 v, set s.grid c.x c.y s.currentPlayer = .ok g1 ∧ checkWinner g1 = .ok v ∧
        (truthy v = true →
          v = .str s.currentPlayer ∧
          (∀ l ∈ lines3, ∀ m, m ≠ "" → LineHolds g1 l m → m = s.currentPlayer) ∧
          play s c =
            .ok ({ placed s g1 with winner := some s.currentPlayer }, [s.currentPlayer]))) := by
  have hs := reachable_inv hr
  refine ⟨?_, hs.lineMark, ?_⟩
  · intro l1 h1 l2 h2 m1 m2 hm1 hm2 k1 k2
    rw [(hs.lineMark l1 h1 m1 hm1 k1).2, (hs.lineMark l2 h2 m2 hm2 k2).2]
  · intro i j c hw hc he
    obtain ⟨hx, hy⟩ := shape_cellAt hs.shape hc
    obtain ⟨g1, w, h1, h2, _, _, _, _, hstr, hlines, hplay⟩ := play_empty hs hw hc he
    refine ⟨g1, w, by rw [hx, hy, h1], h2, fun ht => ⟨hstr ht, hlines, ?_⟩⟩
    rw [if_pos ht] at hplay
    exact hplay

theorem completed_line_holds_currentPlayer_witness :
    Reachable rowGameState ∧
    ∃ g1 v, set rowGameState.grid 0 2 rowGameState.currentPlayer = .ok g1 ∧
      checkWinner g1 = .ok v ∧
      (truthy v = true →
        v = .str rowGameState.currentPlayer ∧
        (∀ l ∈ lines3, ∀ m, m ≠ "" → LineHolds g1 l m → m = rowGameState.currentPlayer) ∧
        play rowGameState ⟨0, 2, ""⟩ =
          .ok ({ placed rowGameState g1 with winner := some rowGameState.currentPlayer },
            [rowGameState.currentPlayer])) :=
  ⟨rowGameState_reachable,
    (completed_line_holds_currentPlayer rowGameState rowGameState_reachable).2.2
      0 2 ⟨0, 2, ""⟩ rfl (by decide) rfl⟩

/-- C7: in a reachable 3x3 state with `winner` null, a click on an empty cell
succeeds, and it sets `winner` to "Draw" if and only if afterwards cellFilled
is 9 and no line holds three equal non-empty marks; the callback is then
called exactly once, with "Draw". -/
theorem draw_iff_full_board_without_line (s : Game) (hr : Reachable s) (hw : s.winner = none)
    (i j : Nat) (c : Cell) (hc : cellAt s.grid i j = some c) (he : c.textContent = "") :
    ∃ s1 out, step s (.clickCell i j) = .ok (s1, out) ∧
      s1.cellFilled = s.cellFilled + 1 ∧
      (s1.winner = some "Draw" ↔
        s1.cellFilled = 9 ∧ ¬ ∃ l ∈ lines3, LineComplete s1.grid l) ∧
      (s1.winner = some "Draw" → out = ["Draw"]) := by
  have hs := reachable_inv hr
  obtain ⟨g1, w, _, _, _, _, _, hiff, _, _, hplay⟩ := play_empty hs hw hc he
  have hstep : step s (.clickCell i j) = play s c := by
    simp only [step, hc, onClick, hw, if_true]
  rw [hstep, hplay]
  have hcur : s.currentPlayer ≠ "Draw" := by
    rcases hs.player with h | h <;> rw [h] <;> decide
  by_cases ht : truthy w = true
  · rw [if_pos ht]
    refine ⟨_, _, rfl, rfl, ?_, ?_⟩
    · simp only [placed, Option.some.injEq, hcur, false_iff, not_and, not_not]
      exact fun _ => hiff.1 ht
    · intro h
      simp only [Option.some.injEq] at h
      exact absurd h hcur
  · rw [if_neg ht]
    have hno : ¬ ∃ l ∈ lines3, LineComplete g1 l := fun h => ht (hiff.2 h)
    by_cases h9 : s.cellFilled + 1 = 9
    · rw [if_pos h9]
      exact ⟨_, _, rfl, rfl, ⟨fun _ => ⟨h9, hno⟩, fun _ => rfl⟩, fun _ => rfl⟩
    · rw [if_neg h9]
      refine ⟨_, _, rfl, rfl, ?_, ?_⟩
      · simp only [changePlayer, placed, hw]
        constructor
        · intro h; cases h
        · intro h; exact absurd h.1 h9
      · intro h
        simp only [changePlayer, placed, hw] at h
        cases h

theorem draw_iff_full_board_without_line_witness :
    Reachable drawGameState ∧ drawGameState.winner = none ∧
    cellAt drawGameState.grid 2 2 = some ⟨2, 2, ""⟩ ∧
    step drawGameState (.clickCell 2 2) = .ok
      ({ gridSize := 3,
         grid := [[⟨0, 0, "X"⟩, ⟨0, 1, "O"⟩, ⟨0, 2, "X"⟩],
                  [⟨1, 0, "X"⟩, ⟨1, 1, "O"⟩, ⟨1, 2, "O"⟩],
                  [⟨2, 0, "O"⟩, ⟨2, 1, "X"⟩, ⟨2, 2, "X"⟩]],
         currentPlayer := "X", winner := some "Draw", cellFilled := 9 }, ["Draw"]) ∧
    ∃ s1 out, step drawGameState (.clickCell 2 2) = .ok (s1, out) ∧
      s1.cellFilled = drawGameState.cellFilled + 1 ∧
      (s1.winner = some "Draw" ↔
        s1.cellFilled = 9 ∧ ¬ ∃ l ∈ lines3, LineComplete s1.grid l) ∧
      (s1.winner = some "Draw" → out = ["Draw"]) :=
  ⟨drawGameState_reachable, rfl, by decide, by decide,
    draw_iff_full_board_without_line drawGameState drawGameState_reachable rfl 2 2
      ⟨2, 2, ""⟩ (by decide) rfl⟩

theorem play_in_progress_toggles {s s1 : Game} {c : Cell} {out : List String}
    (he : c.textContent = "") (h : play s c = .ok (s1, out)) (hw1 : s1.winner = none) :
    s1.currentPlayer = if s.currentPlayer = "X" then "O" else "X" := by
  simp only [play, he, if_true, bind, Except.bind] at h
  cases hset : set s.grid c.x c.y s.currentPlayer with
  | error err => simp [hset] at h
  | ok g1 =>
    simp only [hset] at h
    cases hcw : checkWinner g1 with
    | error err => simp [hcw] at h
    | ok w =>
      simp only [hcw, pure, Except.pure] at h
      split_ifs at h
      · cases h; simp at hw1
      · cases h; simp at hw1
      · cases h; rfl

/-- C8: after `k` placements on empty cells from the fresh game, each leaving
`winner` null, currentPlayer is X when `k` is even and O when `k` is odd. -/
theorem currentPlayer_alternates (n k : Nat) (s : Game) (h : Placements n k s) :
    s.currentPlayer = if k % 2 = 0 then "X" else "O" := by
  induction h with
  | zero => rfl
  | @succ k i j s s1 cell out _ hw hc he hstep hw1 ih =>
    have hplay : play s cell = .ok (s1, out) := by
      simpa only [step, hc, onClick, hw, if_true] using hstep
    rw [play_in_progress_toggles he hplay hw1, ih]
    rcases Nat.mod_two_eq_zero_or_one k with h0 | h0
    · have h1 : (k + 1) % 2 = 1 := by omega
      simp [h0, h1]
    · have h1 : (k + 1) % 2 = 0 := by omega
      simp [h0, h1]

theorem currentPlayer_alternates_witness :
    Placements 3 1 firstMoveState ∧
    firstMoveState.currentPlayer = if 1 % 2 = 0 then "X" else "O" :=
  have h : Placements 3 1 firstMoveState :=
    @Placements.succ 3 0 0 0 (new 3) firstMoveState ⟨0, 0, ""⟩ [] Placements.zero rfl
      (by decide) rfl (by decide) rfl
  ⟨h, currentPlayer_alternates 3 1 firstMoveState h⟩

/-! ## The winner callback -/

/-- C10: from a fresh or freshly reset 3x3 game, every sequence of clicks
without a reset runs to a state `s`, and the calls made to the callback are
none while `winner` is null and exactly one, with the winner (X, O or Draw),
once it is not; every further click calls it exactly when it changes `winner`
from null, with the new value, and not at all when the game stays in progress
or the click is ignored; a reset never calls it. -/
theorem winnerCallback_called_once (s0 : Game)
    (h0 : s0 = new 3 ∨ ∃ r, Reachable r ∧ s0 = reset r)
    (es : List Event) (hes : ∀ e ∈ es, e ≠ Event.reset) :
    ∃ s calls, run s0 es = .ok (s, calls) ∧
      calls = winnerCalls s ∧ calls.length ≤ 1 ∧
      (s.winner = none ∨ s.winner = some "X" ∨ s.winner = some "O" ∨
        s.winner = some "Draw") ∧
      (s.winner ≠ none → ∃ w, s.winner = some w ∧ calls = [w]) ∧
      (∀ e, ∃ s1 out, step s e = .ok (s1, out) ∧
        (e = .reset → out = [] ∧ s1 = reset s) ∧
        (e ≠ .reset → out = if s.winner = none then winnerCalls s1 else []) ∧
        (e ≠ .reset → s.winner ≠ none → s1 = s)) := by
  have hs0 : Inv s0 ∧ s0.winner = none := by
    rcases h0 with rfl | ⟨r, hr, rfl⟩
    · exact ⟨inv_new, rfl⟩
    · exact ⟨inv_reset (reachable_inv hr), rfl⟩
  obtain ⟨s, calls, h1, h2, h3⟩ := run_inv hs0.1 es hes
  have hcalls : calls = winnerCalls s := by
    rw [← h3]; simp [winnerCalls, hs0.2]
  refine ⟨s, calls, h1, hcalls, ?_, ?_, ?_, ?_⟩
  · rw [hcalls]; unfold winnerCalls; cases s.winner <;> simp
  · rcases h2.winnerValue with h | h | h
    · exact Or.inl h
    · rcases h2.player with k | k
      · exact Or.inr (Or.inl (by rw [h, k]))
      · exact Or.inr (Or.inr (Or.inl (by rw [h, k])))
    · exact Or.inr (Or.inr (Or.inr h))
  · intro hw
    cases hsw : s.winner with
    | none => exact absurd hsw hw
    | some w => exact ⟨w, rfl, by rw [hcalls]; simp [winnerCalls, hsw]⟩
  · intro e
    obtain ⟨s1, out, k1, _, k2, k3, k4⟩ := step_inv h2 e
    refine ⟨s1, out, k1, fun he => ⟨k2 he, ?_⟩, k3, k4⟩
    subst he
    simp only [step, pure, Except.pure, Except.ok.injEq, Prod.mk.injEq] at k1
    exact k1.1.symm

theorem winnerCallback_called_once_witness :
    (new 3 = new 3 ∨ ∃ r, Reachable r ∧ new 3 = reset r) ∧
    (∀ e ∈ rowGameMoves ++ [.clickCell 0 2, .clickCell 2 2], e ≠ Event.reset) ∧
    run (new 3) (rowGameMoves ++ [.clickCell 0 2, .clickCell 2 2]) = .ok (rowGameWon, ["X"]) ∧
    ∃ s calls, run (new 3) (rowGameMoves ++ [.clickCell 0 2, .clickCell 2 2]) = .ok (s, calls) ∧
      calls = winnerCalls s ∧ calls.length ≤ 1 ∧
      (s.winner = none ∨ s.winner = some "X" ∨ s.winner = some "O" ∨
        s.winner = some "Draw") ∧
      (s.winner ≠ none → ∃ w, s.winner = some w ∧ calls = [w]) ∧
      (∀ e, ∃ s1 out, step s e = .ok (s1, out) ∧
        (e = .reset → out = [] ∧ s1 = reset s) ∧
        (e ≠ .reset → out = if s.winner = none then winnerCalls s1 else []) ∧
        (e ≠ .reset → s.winner ≠ none → s1 = s)) :=
  ⟨Or.inl rfl, by decide, by decide,
    winnerCallback_called_once (new 3) (Or.inl rfl)
      (rowGameMoves ++ [.clickCell 0 2, .clickCell 2 2]) (by decide)⟩

/-! ## The reported line -/

theorem reportsFirst_single {g : Grid} {l : List (Nat × Nat)} {r : Except JSError JSValue}
    (hne : ∃ p, p ∈ l) (h : Detects g [l] r) : ReportsFirst g [l] r := by
  obtain ⟨v, rfl, h1, h2⟩ := h
  refine ⟨v, rfl, ?_, ?_⟩
  · intro hno
    by_contra ht
    obtain ⟨m, _, hm, k, hk, hh⟩ := h1 (by simpa using ht)
    exact hno k hk ⟨m, hm, hh⟩
  · intro pre l0 post hsplit _ m hm hl
    have hl0 : l0 = l := by
      cases pre with
      | nil => simp at hsplit; exact hsplit.1.symm
      | cons a pre => simp at hsplit
    subst hl0
    obtain ⟨m1, hv, _, k, hk, hh⟩ := h1 (h2 ⟨l0, by simp, m, hm, hl⟩)
    rw [List.mem_singleton] at hk
    subst hk
    obtain ⟨p, hp⟩ := hne
    have e1 := hl p hp
    rw [hh p hp] at e1
    rw [hv, Option.some.inj e1]

theorem reportsFirst_jsOr {g : Grid} {ls1 ls2 : List (List (Nat × Nat))}
    {a b : Except JSError JSValue} (ha : ReportsFirst g ls1 a) (hb : ReportsFirst g ls2 b) :
    ReportsFirst g (ls1 ++ ls2) (jsOr a b) := by
  obtain ⟨va, rfl, ha1, ha2⟩ := ha
  obtain ⟨vb, rfl, hb1, hb2⟩ := hb
  have hstr : ∀ m, m ≠ "" → truthy (.str m) = true := by
    intro m hm; simp [truthy, hm]
  by_cases hva : truthy va = true
  · refine ⟨va, by simp [jsOr, hva, bind, Except.bind, pure, Except.pure], ?_, ?_⟩
    · intro hno
      exact absurd (ha1 fun l hl => hno l (List.mem_append_left _ hl)) (by simp [hva])
    · intro pre l post hsplit hpre m hm hl
      rcases List.append_eq_append_iff.1 hsplit with ⟨a1, e1, e2⟩ | ⟨c1, e1, e2⟩
      · -- the first complete line lies in `ls2`: then no line of `ls1` is complete
        have hno : ∀ k ∈ ls1, ¬ LineComplete g k := fun k hk =>
          hpre k (by rw [e1]; exact List.mem_append_left _ hk)
        exact absurd (ha1 hno) (by simp [hva])
      · rcases List.cons_eq_append_iff.1 e2 with ⟨e3, e4⟩ | ⟨c2, e3, _⟩
        · subst e3
          have hno : ∀ k ∈ ls1, ¬ LineComplete g k := fun k hk =>
            hpre k (by rw [e1] at hk; simpa using hk)
          exact absurd (ha1 hno) (by simp [hva])
        · subst e3
          exact ha2 pre l c2 e1 hpre m hm hl
  · refine ⟨vb, by simp [jsOr, hva, bind, Except.bind, pure, Except.pure], ?_, ?_⟩
    · intro hno
      exact hb1 fun l hl => hno l (List.mem_append_right _ hl)
    · intro pre l post hsplit hpre m hm hl
      rcases List.append_eq_append_iff.1 hsplit with ⟨a1, e1, e2⟩ | ⟨c1, e1, e2⟩
      · exact hb2 a1 l post e2 (fun k hk => hpre k (by rw [e1]; exact List.mem_append_right _ hk))
          m hm hl
      · rcases List.cons_eq_append_iff.1 e2 with ⟨e3, e4⟩ | ⟨c2, e3, _⟩
        · subst e3
          exact hb2 [] l post (by simpa using e4) (by simp) m hm hl
        · subst e3
          have := ha2 pre l c2 e1 hpre m hm hl
          rw [this] at hva
          exact absurd (hstr m hm) hva

theorem reportsFirst_checkWinner {g : Grid} (h : IsBoard3 g) :
    ReportsFirst g lines3 (checkWinner g) := by
  obtain ⟨a, b, c, d, e, f, x, y, z, rfl⟩ := board3_eq h
  obtain ⟨r0, r1, r2⟩ := detects_row a b c d e f x y z
  obtain ⟨c0, c1, c2⟩ := detects_col a b c d e f x y z
  obtain ⟨d0, d1⟩ := detects_diag a b c d e f x y z
  have ne : ∀ p q r : Nat × Nat, ∃ t, t ∈ [p, q, r] := fun p _ _ => ⟨p, by simp⟩
  exact reportsFirst_jsOr (reportsFirst_jsOr (reportsFirst_jsOr (reportsFirst_jsOr
    (reportsFirst_jsOr (reportsFirst_jsOr (reportsFirst_jsOr
      (reportsFirst_single (ne _ _ _) r0) (reportsFirst_single (ne _ _ _) r1))
      (reportsFirst_single (ne _ _ _) r2)) (reportsFirst_single (ne _ _ _) c0))
      (reportsFirst_single (ne _ _ _) c1)) (reportsFirst_single (ne _ _ _) c2))
      (reportsFirst_single (ne _ _ _) d0)) (reportsFirst_single (ne _ _ _) d1)

/-- C11: on every 3x3 board, when `l` is the first line that holds three
equal non-empty marks in the order row 0, 1, 2, column 0, 1, 2, diagonal,
anti-diagonal, `checkWinner` returns the mark of `l`; lines of three empty
cells before it do not stop the search.  With row 0 all X and row 1 all O the
result is X; with row 0 empty and row 1 all O it is O. -/
theorem checkWinner_returns_first_complete_line (g : Grid) (h : IsBoard3 g)
    (pre : List (List (Nat × Nat))) (l : List (Nat × Nat)) (post : List (List (Nat × Nat)))
    (hsplit : lines3 = pre ++ l :: post) (hpre : ∀ k ∈ pre, ¬ LineComplete g k)
    (m : String) (hm : m ≠ "") (hl : LineHolds g l m) :
    checkWinner g = .ok (.str m) ∧
    checkWinner [[⟨0, 0, "X"⟩, ⟨0, 1, "X"⟩, ⟨0, 2, "X"⟩], [⟨1, 0, "O"⟩, ⟨1, 1, "O"⟩, ⟨1, 2, "O"⟩],
      [⟨2, 0, ""⟩, ⟨2, 1, ""⟩, ⟨2, 2, ""⟩]] = .ok (.str "X") ∧
    checkWinner [[⟨0, 0, ""⟩, ⟨0, 1, ""⟩, ⟨0, 2, ""⟩], [⟨1, 0, "O"⟩, ⟨1, 1, "O"⟩, ⟨1, 2, "O"⟩],
      [⟨2, 0, "X"⟩, ⟨2, 1, "X"⟩, ⟨2, 2, ""⟩]] = .ok (.str "O") := by
  obtain ⟨v, hv, _, h2⟩ := reportsFirst_checkWinner h
  refine ⟨?_, by decide, by decide⟩
  rw [hv, h2 pre l post hsplit hpre m hm hl]

theorem checkWinner_returns_first_complete_line_witness :
    IsBoard3 firstLineBoard ∧
    lines3 = [[(0, 0), (0, 1), (0, 2)], [(1, 0), (1, 1), (1, 2)], [(2, 0), (2, 1), (2, 2)]] ++
      [(0, 0), (1, 0), (2, 0)] ::
      [[(0, 1), (1, 1), (2, 1)], [(0, 2), (1, 2), (2, 2)], [(0, 0), (1, 1), (2, 2)],
       [(0, 2), (1, 1), (2, 0)]] ∧
    LineHolds firstLineBoard [(0, 0), (1, 0), (2, 0)] "O" ∧
    checkWinner firstLineBoard = .ok (.str "O") :=
  ⟨by decide, by decide, by decide,
    (checkWinner_returns_first_complete_line firstLineBoard (by decide)
      [[(0, 0), (0, 1), (0, 2)], [(1, 0), (1, 1), (1, 2)], [(2, 0), (2, 1), (2, 2)]]
      [(0, 0), (1, 0), (2, 0)]
      [[(0, 1), (1, 1), (2, 1)], [(0, 2), (1, 2), (2, 2)], [(0, 0), (1, 1), (2, 2)],
       [(0, 2), (1, 1), (2, 0)]] (by decide)
      (by decide)
      "O" (by decide) (by decide)).1⟩

/-! ## Grids of size at least 3: no error -/

theorem shape_rows {n : Nat} {g : Grid} (h : HasShape n g) :
    g.length = n ∧ ∀ row ∈ g, row.length = n := by
  constructor
  · have := congrArg List.length h
    simpa [coords] using this
  · intro row hrow
    have h1 : (row.map fun cell => (cell.x, cell.y)) ∈ coords g :=
      List.mem_map_of_mem _ hrow
    rw [h] at h1
    obtain ⟨i, _, hi⟩ := List.mem_map.1 h1
    have := congrArg List.length hi
    simpa using this.symm

theorem shape_getCell {n : Nat} {g : Grid} (h : HasShape n g) {i j : Nat} (hi : i < n)
    (hj : j < n) : ∃ c, getCell g i j = .ok c ∧ cellAt g i j = some c := by
  obtain ⟨hlen, hrows⟩ := shape_rows h
  have hi1 : i < g.length := by rw [hlen]; exact hi
  have hrow : g[i]? = some g[i] := List.getElem?_eq_getElem hi1
  have hj1 : j < g[i].length := by rw [hrows _ (List.getElem_mem hi1)]; exact hj
  have hcell : g[i][j]? = some g[i][j] := List.getElem?_eq_getElem hj1
  exact ⟨g[i][j], by simp only [getCell, hrow, hcell], by simp only [cellAt, hrow, hcell]⟩

theorem isRowHasWinner_ok {n : Nat} {g : Grid} (h : HasShape n g) {r : Nat} (hr : r < n) :
    ∃ w, isRowHasWinner g r = .ok w := by
  obtain ⟨c, _, hc⟩ := shape_getCell h hr (Nat.lt_of_le_of_lt (Nat.zero_le r) hr)
  unfold cellAt at hc
  unfold isRowHasWinner
  cases hrow : g[r]? with
  | none => simp [hrow] at hc
  | some row =>
    simp only [hrow] at hc ⊢
    simp only [hc]
    split_ifs
    · exact ⟨_, rfl⟩
    · exact ⟨_, rfl⟩

theorem everyTextIs_ok (value : String) :
    ∀ l : List (Option Cell), (∀ o ∈ l, o ≠ none) → ∃ b, everyTextIs value l = .ok b := by
  intro l
  induction l with
  | nil => intro _; exact ⟨true, rfl⟩
  | cons o l ih =>
    intro h
    cases o with
    | none => exact absurd rfl (h none (by simp))
    | some v =>
      unfold everyTextIs
      split_ifs
      · exact ih fun o ho => h o (by simp [ho])
      · exact ⟨false, rfl⟩

theorem isColHasWinner_ok {n : Nat} {g : Grid} (h : HasShape n g) {c : Nat} (hc : c < n) :
    ∃ w, isColHasWinner g c = .ok w := by
  have hn : 0 < n := Nat.lt_of_le_of_lt (Nat.zero_le c) hc
  obtain ⟨c0, h0, _⟩ := shape_getCell h hn hc
  obtain ⟨_, hrows⟩ := shape_rows h
  obtain ⟨b, hb⟩ := everyTextIs_ok c0.textContent (g.map fun row => row[c]?) (by
    intro o ho
    obtain ⟨row, hrow, rfl⟩ := List.mem_map.1 ho
    have : c < row.length := by rw [hrows row hrow]; exact hc
    simp [List.getElem?_eq_getElem this])
  simp only [isColHasWinner, h0, hb, bind, Except.bind, pure, Except.pure]
  split_ifs
  · exact ⟨_, rfl⟩
  · exact ⟨_, rfl⟩

theorem diagonalLoop_ok {n : Nat} {g : Grid} (h : HasShape n g) (value : String)
    (col : Nat → Nat) :
    ∀ l : List Nat, (∀ i ∈ l, i < n ∧ col i < n) →
      ∃ w, diagonalLoop g value col l = .ok w := by
  intro l
  induction l with
  | nil => intro _; exact ⟨_, rfl⟩
  | cons i l ih =>
    intro hl
    obtain ⟨hi, hci⟩ := hl i (by simp)
    obtain ⟨c, hc, _⟩ := shape_getCell h hi hci
    simp only [diagonalLoop, hc, bind, Except.bind, pure, Except.pure]
    split_ifs
    · exact ⟨_, rfl⟩
    · exact ih fun k hk => hl k (by simp [hk])

theorem jsOr_ok {a b : Except JSError JSValue} (ha : ∃ v, a = .ok v) (hb : ∃ v, b = .ok v) :
    ∃ v, jsOr a b = .ok v := by
  obtain ⟨va, rfl⟩ := ha
  obtain ⟨vb, rfl⟩ := hb
  simp only [jsOr, bind, Except.bind, pure, Except.pure]
  split_ifs
  · exact ⟨_, rfl⟩
  · exact ⟨_, rfl⟩

theorem checkWinner_ok {n : Nat} (hn : 3 ≤ n) {g : Grid} (h : HasShape n g) :
    ∃ w, checkWinner g = .ok w := by
  obtain ⟨hlen, _⟩ := shape_rows h
  have hd : ∃ w, checkDiagonal g = .ok w := by
    obtain ⟨c, hc, _⟩ := shape_getCell h (show 0 < n by omega) (show 0 < n by omega)
    simp only [checkDiagonal, hc, bind, Except.bind]
    exact diagonalLoop_ok h _ _ _ (by
      intro i hi
      rw [List.mem_range, hlen] at hi
      exact ⟨hi, hi⟩)
  have hr : ∃ w, checkDiagonalReverse g = .ok w := by
    obtain ⟨c, hc, _⟩ := shape_getCell h (show 0 < n by omega) (show 2 < n by omega)
    simp only [checkDiagonalReverse, hc, bind, Except.bind]
    exact diagonalLoop_ok h _ _ _ (by
      intro i hi
      rw [List.mem_range, hlen] at hi
      exact ⟨hi, by omega⟩)
  exact jsOr_ok (jsOr_ok (jsOr_ok (jsOr_ok (jsOr_ok (jsOr_ok (jsOr_ok
    (isRowHasWinner_ok h (show 0 < n by omega)) (isRowHasWinner_ok h (show 1 < n by omega)))
    (isRowHasWinner_ok h (show 2 < n by omega))) (isColHasWinner_ok h (show 0 < n by omega)))
    (isColHasWinner_ok h (show 1 < n by omega))) (isColHasWinner_ok h (show 2 < n by omega)))
    hd) hr

theorem play_shape {n : Nat} (hn : 3 ≤ n) {s : Game} (hs : HasShape n s.grid) {i j : Nat}
    {c : Cell} (hc : cellAt s.grid i j = some c) (he : c.textContent = "") :
    ∃ g1 w, set s.grid i j s.currentPlayer = .ok g1 ∧ checkWinner g1 = .ok w ∧
      HasShape n g1 ∧
      (∀ r k, textAt g1 r k = if r = i ∧ k = j then some s.currentPlayer else textAt s.grid r k) ∧
      play s c = .ok
        (if truthy w = true then
          ({ placed s g1 with winner := some s.currentPlayer }, [s.currentPlayer])
        else if s.cellFilled + 1 = s.gridSize * s.gridSize then
          ({ placed s g1 with winner := some "Draw" }, ["Draw"])
        else (changePlayer (placed s g1), [])) := by
  obtain ⟨hx, hy⟩ := shape_cellAt hs hc
  obtain ⟨g1, hset, hco, htext, _⟩ := set_spec hc s.currentPlayer
  have hshape : HasShape n g1 := by
    unfold HasShape; rw [hco]; exact hs
  obtain ⟨w, hw⟩ := checkWinner_ok hn hshape
  refine ⟨g1, w, hset, hw, hshape, htext, ?_⟩
  simp only [play, he, if_true, hx, hy, hset, bind, Except.bind, hw, placed]
  split_ifs <;> rfl

/-- C12 (the code at a failing input): on the fresh 2x2 game the first click,
on the empty cell (0,0), raises a `TypeError`: after rows 0 and 1,
`isRowHasWinner(2)` reads `grid[2][0]` outside the grid. -/
theorem play_raises_typeError_on_size2 :
    step (new 2) (.clickCell 0 0) = .error .typeError ∧
    cellAt (new 2).grid 0 0 = some ⟨0, 0, ""⟩ ∧
    play (new 2) ⟨0, 0, ""⟩ = .error .typeError ∧
    set (new 2).grid 0 0 "X" = .ok [[⟨0, 0, "X"⟩, ⟨0, 1, ""⟩], [⟨1, 0, ""⟩, ⟨1, 1, ""⟩]] ∧
    isRowHasWinner [[⟨0, 0, "X"⟩, ⟨0, 1, ""⟩], [⟨1, 0, ""⟩, ⟨1, 1, ""⟩]] 0 = .ok (.bool false) ∧
    isRowHasWinner [[⟨0, 0, "X"⟩, ⟨0, 1, ""⟩], [⟨1, 0, ""⟩, ⟨1, 1, ""⟩]] 1 = .ok (.str "") ∧
    isRowHasWinner [[⟨0, 0, "X"⟩, ⟨0, 1, ""⟩], [⟨1, 0, ""⟩, ⟨1, 1, ""⟩]] 2 =
      .error .typeError := by
  refine ⟨?_, ?_, ?_, ?_, ?_, ?_, ?_⟩ <;> decide

/-! ## The write of `play` -/

theorem set_cellAt {g : Grid} {i j : Nat} {c : Cell} (h : cellAt g i j = some c) (v : String)
    {g1 : Grid} (hset : set g i j v = .ok g1) :
    ∀ r k, cellAt g1 r k =
      if r = i ∧ k = j then some { c with textContent := v } else cellAt g r k := by
  unfold cellAt at h
  cases hrow : g[i]? with
  | none => simp [hrow] at h
  | some row =>
    simp only [hrow] at h
    have hi : i < g.length := (List.getElem?_eq_some.1 hrow).1
    have hj : j < row.length := (List.getElem?_eq_some.1 h).1
    simp only [set, hrow, h, Except.ok.injEq] at hset
    subst hset
    intro r k
    unfold cellAt
    rw [List.getElem?_set]
    by_cases hr : i = r
    · subst hr
      simp only [true_and, hi, if_true, hrow]
      rw [List.getElem?_set]
      by_cases hk : j = k
      · subst hk; simp [hj]
      · have hk2 : ¬ k = j := fun e => hk e.symm
        simp [hk, hk2]
    · have hr2 : ¬ r = i := fun e => hr e.symm
      simp [hr, hr2]

theorem play_result {s s1 : Game} {c : Cell} {out : List String}
    (he : c.textContent = "") (h : play s c = .ok (s1, out)) :
    ∃ g1, set s.grid c.x c.y s.currentPlayer = .ok g1 ∧ s1.grid = g1 ∧
      s1.cellFilled = s.cellFilled + 1 := by
  simp only [play, he, if_true, bind, Except.bind] at h
  cases hset : set s.grid c.x c.y s.currentPlayer with
  | error err => simp [hset] at h
  | ok g1 =>
    simp only [hset] at h
    cases hcw : checkWinner g1 with
    | error err => simp [hcw] at h
    | ok w =>
      simp only [hcw, pure, Except.pure] at h
      refine ⟨g1, rfl, ?_⟩
      split_ifs at h
      · cases h; exact ⟨rfl, rfl⟩
      · cases h; exact ⟨rfl, rfl⟩
      · cases h; exact ⟨rfl, rfl⟩

theorem play_shape_write {n : Nat} (hn : 3 ≤ n) {s : Game} (hs : HasShape n s.grid)
    {i j : Nat} {c : Cell} (hc : cellAt s.grid i j = some c) (he : c.textContent = "") :
    ∃ s1 out, play s c = .ok (s1, out) ∧
      s1.cellFilled = s.cellFilled + 1 ∧
      HasShape n s1.grid ∧
      ∀ r k, cellAt s1.grid r k =
        if r = i ∧ k = j then some { c with textContent := s.currentPlayer }
        else cellAt s.grid r k := by
  obtain ⟨g1, w, hset, _, hshape, _, hplay⟩ := play_shape hn hs hc he
  have hcells := set_cellAt hc s.currentPlayer hset
  by_cases ht : truthy w = true
  · rw [if_pos ht] at hplay
    exact ⟨_, _, hplay, rfl, hshape, hcells⟩
  · rw [if_neg ht] at hplay
    by_cases h9 : s.cellFilled + 1 = s.gridSize * s.gridSize
    · rw [if_pos h9] at hplay
      exact ⟨_, _, hplay, rfl, hshape, hcells⟩
    · rw [if_neg h9] at hplay
      exact ⟨_, _, hplay, rfl, hshape, hcells⟩

/-- C13: in every state with a 3x3 grid, `play` on the empty cell at (r, c)
returns; afterwards that cell holds the mark that currentPlayer had before the
call, cellFilled is larger by exactly 1, and every other cell is unchanged. -/
theorem play_writes_mark_and_counts (s : Game) (hs : HasShape 3 s.grid) (r c : Nat)
    (cell : Cell) (hc : cellAt s.grid r c = some cell) (he : cell.textContent = "") :
    ∃ s1 out, play s cell = .ok (s1, out) ∧
      cellAt s1.grid r c = some { cell with textContent := s.currentPlayer } ∧
      textAt s1.grid r c = some s.currentPlayer ∧
      s1.cellFilled = s.cellFilled + 1 ∧
      (∀ r1 c1, ¬ (r1 = r ∧ c1 = c) → cellAt s1.grid r1 c1 = cellAt s.grid r1 c1) ∧
      HasShape 3 s1.grid := by
  obtain ⟨s1, out, h1, h2, h3, h4⟩ := play_shape_write (Nat.le_refl 3) hs hc he
  have h5 : cellAt s1.grid r c = some { cell with textContent := s.currentPlayer } := by
    rw [h4]; simp
  refine ⟨s1, out, h1, h5, by simp [textAt, h5], h2, ?_, h3⟩
  intro r1 c1 hne
  rw [h4, if_neg hne]

theorem play_writes_mark_and_counts_witness :
    HasShape 3 rowGameWon.grid ∧ cellAt rowGameWon.grid 2 2 = some ⟨2, 2, ""⟩ ∧
    ∃ s1 out, play rowGameWon ⟨2, 2, ""⟩ = .ok (s1, out) ∧
      cellAt s1.grid 2 2 = some ⟨2, 2, "X"⟩ ∧
      textAt s1.grid 2 2 = some rowGameWon.currentPlayer ∧
      s1.cellFilled = rowGameWon.cellFilled + 1 ∧
      (∀ r1 c1, ¬ (r1 = 2 ∧ c1 = 2) → cellAt s1.grid r1 c1 = cellAt rowGameWon.grid r1 c1) ∧
      HasShape 3 s1.grid :=
  ⟨by decide, by decide,
    play_writes_mark_and_counts rowGameWon (by decide) 2 2 ⟨2, 2, ""⟩ (by decide) rfl⟩

/-- C18: `play` does not read `winner`.  In a state whose winner is not null,
with a grid of size at least 3, `play` called directly on an empty cell
returns, writes currentPlayer's mark into that cell and increases cellFilled
by 1, whereas the click listener leaves the state as it is; and on a grid of
any size, whenever `play` on an empty cell returns, it has written the mark
with `set` and increased cellFilled by 1. -/
theorem play_does_not_consult_winner (n : Nat) (hn : 3 ≤ n) (s : Game)
    (hs : HasShape n s.grid) (hw : s.winner ≠ none) (r c : Nat) (cell : Cell)
    (hc : cellAt s.grid r c = some cell) (he : cell.textContent = "") :
    (∃ s1 out, play s cell = .ok (s1, out) ∧
      cellAt s1.grid r c = some { cell with textContent := s.currentPlayer } ∧
      s1.cellFilled = s.cellFilled + 1) ∧
    step s (.clickCell r c) = .ok (s, []) ∧
    (∀ (t : Game) (c0 : Cell) (t1 : Game) (out : List String),
      c0.textContent = "" → play t c0 = .ok (t1, out) →
      ∃ g1, set t.grid c0.x c0.y t.currentPlayer = .ok g1 ∧ t1.grid = g1 ∧
        t1.cellFilled = t.cellFilled + 1) := by
  obtain ⟨s1, out, h1, h2, _, h4⟩ := play_shape_write hn hs hc he
  refine ⟨⟨s1, out, h1, by rw [h4]; simp, h2⟩, ?_, fun t c0 t1 out h0 hp => play_result h0 hp⟩
  simp [step, hc, onClick, hw, pure, Except.pure]

theorem play_does_not_consult_winner_witness :
    3 ≤ 3 ∧ HasShape 3 rowGameWon.grid ∧ rowGameWon.winner ≠ none ∧
    cellAt rowGameWon.grid 1 2 = some ⟨1, 2, ""⟩ ∧
    play rowGameWon ⟨1, 2, ""⟩ = .ok
      ({ gridSize := 3,
         grid := [[⟨0, 0, "X"⟩, ⟨0, 1, "X"⟩, ⟨0, 2, "X"⟩],
                  [⟨1, 0, "O"⟩, ⟨1, 1, "O"⟩, ⟨1, 2, "X"⟩],
                  [⟨2, 0, ""⟩, ⟨2, 1, ""⟩, ⟨2, 2, ""⟩]],
         currentPlayer := "X", winner := some "X", cellFilled := 6 }, ["X"]) ∧
    (∃ s1 out, play rowGameWon ⟨1, 2, ""⟩ = .ok (s1, out) ∧
      cellAt s1.grid 1 2 = some ⟨1, 2, "X"⟩ ∧
      s1.cellFilled = rowGameWon.cellFilled + 1) ∧
    step rowGameWon (.clickCell 1 2) = .ok (rowGameWon, []) :=
  have h := play_does_not_consult_winner 3 (by decide) rowGameWon (by decide) (by decide)
    1 2 ⟨1, 2, ""⟩ (by decide) rfl
  ⟨by decide, by decide, by decide, by decide, by decide, h.1, h.2.1⟩

/-! ## Counting the marks -/

theorem countP_set_add {α : Type} (p : α → Bool) :
    ∀ (l : List α) (i : Nat) (a b : α), l[i]? = some b →
      (l.set i a).countP p + (if p b = true then 1 else 0) =
        l.countP p + (if p a = true then 1 else 0) := by
  intro l
  induction l with
  | nil => intro i a b h; simp at h
  | cons x l ih =>
    intro i a b h
    cases i with
    | zero =>
      simp only [List.getElem?_cons_zero, Option.some.injEq] at h
      subst h
      simp only [List.set_cons_zero, List.countP_cons]
      omega
    | succ i =>
      simp only [List.getElem?_cons_succ] at h
      simp only [List.set_cons_succ, List.countP_cons]
      have := ih i a b h
      omega

theorem sum_map_set_add {α : Type} (f : α → Nat) :
    ∀ (l : List α) (i : Nat) (a b : α), l[i]? = some b →
      ((l.set i a).map f).sum + f b = (l.map f).sum + f a := by
  intro l
  induction l with
  | nil => intro i a b h; simp at h
  | cons x l ih =>
    intro i a b h
    cases i with
    | zero =>
      simp only [List.getElem?_cons_zero, Option.some.injEq] at h
      subst h
      simp only [List.set_cons_zero, List.map_cons, List.sum_cons]
      omega
    | succ i =>
      simp only [List.getElem?_cons_succ] at h
      simp only [List.set_cons_succ, List.map_cons, List.sum_cons]
      have := ih i a b h
      omega

theorem set_countText {g : Grid} {i j : Nat} {c : Cell} (h : cellAt g i j = some c)
    (v : String) {g1 : Grid} (hset : set g i j v = .ok g1) (p : String → Bool) :
    countText p g1 + (if p c.textContent = true then 1 else 0) =
      countText p g + (if p v = true then 1 else 0) := by
  unfold cellAt at h
  cases hrow : g[i]? with
  | none => simp [hrow] at h
  | some row =>
    simp only [hrow] at h
    simp only [set, hrow, h, Except.ok.injEq] at hset
    subst hset
    have h1 := sum_map_set_add (fun row : List Cell => row.countP fun cell => p cell.textContent)
      g i (row.set j { c with textContent := v }) row hrow
    have h2 := countP_set_add (fun cell : Cell => p cell.textContent) row j
      { c with textContent := v } c h
    simp only [countText] at h1 h2 ⊢
    omega

theorem countText_le_nine {g : Grid} (h : IsBoard3 g) (p : String → Bool) :
    countText p g ≤ 9 := by
  obtain ⟨hlen, hrows⟩ := h
  have h1 := List.sum_le_card_nsmul (g.map fun row => row.countP fun cell => p cell.textContent) 3
    (by
      intro x hx
      obtain ⟨row, hrow, rfl⟩ := List.mem_map.1 hx
      rw [← hrows row hrow]
      exact List.countP_le_length _)
  simp only [List.length_map, hlen, smul_eq_mul] at h1
  exact h1

theorem countText_reset (s : Game) (p : String → Bool) (hp : p "" = false) :
    countText p (reset s).grid = 0 := by
  simp only [countText, reset, List.map_map]
  apply List.sum_eq_zero
  intro x hx
  obtain ⟨row, _, rfl⟩ := List.mem_map.1 hx
  simp [List.countP_map, Function.comp_def, hp]

/-! ## The counting invariant -/

theorem tally_new : Tally (new 3) := by
  refine ⟨by decide, by decide, fun _ => by decide, ?_⟩
  intro w hw
  cases hw

theorem tally_reset (s : Game) : Tally (reset s) := by
  refine ⟨?_, ?_, fun _ => by simp [reset], ?_⟩
  · rw [countText_reset s _ (by decide)]; rfl
  · rw [countText_reset s _ (by decide), countText_reset s _ (by decide)]
    simp [reset]
  · intro w hw
    cases hw

theorem play_tally {s : Game} (hs : Inv s) (ht : Tally s) (hw : s.winner = none)
    {i j : Nat} {c : Cell} (hc : cellAt s.grid i j = some c) {s1 : Game} {out : List String}
    (hp : play s c = .ok (s1, out)) : Tally s1 := by
  by_cases he : c.textContent = ""
  · obtain ⟨g1, w, hset, _, hshape, _, _, hiff, _, hlines, hplay⟩ := play_empty hs hw hc he
    have hcur : s.currentPlayer ≠ "" := by
      rcases hs.player with h | h <;> rw [h] <;> decide
    have hfill : countText (fun t => t != "") g1 = s.cellFilled + 1 := by
      have := set_countText hc s.currentPlayer hset (fun t => t != "")
      simp only [he, hcur, bne_self_eq_false, Bool.false_eq_true, if_false, bne_iff_ne, ne_eq,
        not_false_eq_true, if_true] at this
      rw [ht.filled]; omega
    have hx := set_countText hc s.currentPlayer hset (fun t => t == "X")
    have ho := set_countText hc s.currentPlayer hset (fun t => t == "O")
    have hbal := ht.balance
    have hle := countText_le_nine (shape_isBoard3 hshape) (fun t => t != "")
    rw [hplay] at hp
    rw [he] at hx ho
    by_cases hwin : truthy w = true
    · rw [if_pos hwin] at hp
      cases hp
      refine ⟨hfill.symm, ?_, fun h => by simp at h, ?_⟩
      · rcases hs.player with h | h <;>
          simp [placed, h, hw] at hx ho hbal ⊢ <;> omega
      · intro w1 hw1
        simp only [Option.some.injEq] at hw1
        obtain ⟨l, hl, m, hm, hh⟩ := hiff.1 hwin
        have hmc := hlines l hl m hm hh
        subst hmc
        exact Or.inl ⟨hw1.symm, l, hl, hh⟩
    · rw [if_neg hwin] at hp
      have hno : ¬ ∃ l ∈ lines3, LineComplete g1 l := fun h => hwin (hiff.2 h)
      by_cases h9 : s.cellFilled + 1 = 9
      · rw [if_pos h9] at hp
        cases hp
        refine ⟨hfill.symm, ?_, fun h => by simp at h, ?_⟩
        · rcases hs.player with h | h <;>
            simp [placed, h, hw] at hx ho hbal ⊢ <;> omega
        · intro w1 hw1
          simp only [Option.some.injEq] at hw1
          exact Or.inr ⟨hw1.symm, h9, hno⟩
      · rw [if_neg h9] at hp
        cases hp
        refine ⟨hfill.symm, ?_, fun _ => ?_, ?_⟩
        · rcases hs.player with h | h <;>
            simp [placed, changePlayer, h, hw] at hx ho hbal ⊢ <;> omega
        · simp only [changePlayer, placed]
          omega
        · intro w1 hw1
          simp [changePlayer, placed, hw] at hw1
  · rw [play_occupied s c he] at hp
    cases hp
    exact ht

theorem step_tally {s : Game} (hs : Inv s) (ht : Tally s) (e : Event) {s1 : Game}
    {out : List String} (h : step s e = .ok (s1, out)) : Tally s1 := by
  cases e with
  | reset =>
    simp only [step, pure, Except.pure, Except.ok.injEq, Prod.mk.injEq] at h
    rw [← h.1]; exact tally_reset s
  | clickRoot =>
    simp only [step, onClick, pure, Except.pure, Except.ok.injEq, Prod.mk.injEq] at h
    rw [← h.1]; exact ht
  | clickCell i j =>
    simp only [step] at h
    cases hc : cellAt s.grid i j with
    | none =>
      simp only [hc, onClick, pure, Except.pure, Except.ok.injEq, Prod.mk.injEq] at h
      rw [← h.1]; exact ht
    | some c =>
      by_cases hw : s.winner = none
      · simp only [hc, onClick, hw, if_true] at h
        exact play_tally hs ht hw hc h
      · simp only [hc, onClick, hw, if_false, pure, Except.pure, Except.ok.injEq,
          Prod.mk.injEq] at h
        rw [← h.1]; exact ht

theorem reachable_tally {s : Game} (h : Reachable s) : Tally s := by
  induction h with
  | init => exact tally_new
  | step e hr hstep ih => exact step_tally (reachable_inv hr) ih e hstep

theorem lastCellState_run : run (new 3) lastCellMoves = .ok (lastCellState, []) := by decide

theorem lastCellState_reachable : Reachable lastCellState :=
  run_reachable Reachable.init _ _ _ lastCellState_run

/-- C14: in a reachable 3x3 state with `winner` null, a placement on an empty
cell that fills the ninth cell and completes a line is a win: `play` sets
`winner` to currentPlayer, which is not "Draw", and calls the callback once,
with that mark. -/
theorem ninth_cell_line_is_win (s : Game) (hr : Reachable s) (hw : s.winner = none)
    (i j : Nat) (c : Cell) (hc : cellAt s.grid i j = some c) (he : c.textContent = "")
    (h9 : s.cellFilled + 1 = 9)
    (g1 : Grid) (hset : set s.grid c.x c.y s.currentPlayer = .ok g1)
    (hline : ∃ l ∈ lines3, LineComplete g1 l) :
    play s c =
      .ok ({ placed s g1 with winner := some s.currentPlayer }, [s.currentPlayer]) ∧
    step s (.clickCell i j) =
      .ok ({ placed s g1 with winner := some s.currentPlayer }, [s.currentPlayer]) ∧
    (placed s g1).cellFilled = 9 ∧
    s.currentPlayer ≠ "Draw" := by
  have hs := reachable_inv hr
  obtain ⟨hx, hy⟩ := shape_cellAt hs.shape hc
  obtain ⟨g2, w, h1, _, _, _, _, hiff, _, _, hplay⟩ := play_empty hs hw hc he
  rw [hx, hy, h1] at hset
  cases hset
  rw [if_pos (hiff.2 hline)] at hplay
  refine ⟨hplay, ?_, h9, ?_⟩
  · simp only [step, hc, onClick, hw, if_true]
    exact hplay
  · rcases hs.player with h | h <;> rw [h] <;> decide

theorem ninth_cell_line_is_win_witness :
    Reachable lastCellState ∧ lastCellState.winner = none ∧
    cellAt lastCellState.grid 2 2 = some ⟨2, 2, ""⟩ ∧
    lastCellState.cellFilled + 1 = 9 ∧
    set lastCellState.grid 2 2 lastCellState.currentPlayer = .ok lastCellWon.grid ∧
    (∃ l ∈ lines3, LineComplete lastCellWon.grid l) ∧
    play lastCellState ⟨2, 2, ""⟩ = .ok (lastCellWon, ["X"]) :=
  ⟨lastCellState_reachable, rfl, by decide, rfl, by decide, by decide,
    (ninth_cell_line_is_win lastCellState lastCellState_reachable rfl 2 2 ⟨2, 2, ""⟩
      (by decide) rfl rfl lastCellWon.grid (by decide) (by decide)).1⟩

/-- C15: in every reachable 3x3 state cellFilled is the number of non-empty
cells of the board, and it lies between 0 and 9. -/
theorem cellFilled_counts_marks (s : Game) (hr : Reachable s) :
    s.cellFilled = countText (fun t => t != "") s.grid ∧
    0 ≤ s.cellFilled ∧ s.cellFilled ≤ 9 := by
  have ht := reachable_tally hr
  refine ⟨ht.filled, Nat.zero_le _, ?_⟩
  rw [ht.filled]
  exact countText_le_nine (shape_isBoard3 (reachable_inv hr).shape) _

theorem cellFilled_counts_marks_witness :
    Reachable lastCellState ∧
    lastCellState.cellFilled = countText (fun t => t != "") lastCellState.grid ∧
    0 ≤ lastCellState.cellFilled ∧ lastCellState.cellFilled ≤ 9 :=
  ⟨lastCellState_reachable, cellFilled_counts_marks lastCellState lastCellState_reachable⟩

/-- C16: in every reachable 3x3 state `winner` agrees with the board: it is
null exactly when no line holds three equal non-empty marks and cellFilled is
below 9; it is X (or O) only if a line holds three X (or O); it is "Draw" only
if cellFilled is 9 and no line is complete.  So cellFilled never exceeds 9
and a game with 9 accepted placements is decided. -/
theorem winner_agrees_with_board (s : Game) (hr : Reachable s) :
    (s.winner = none ↔ (¬ ∃ l ∈ lines3, LineComplete s.grid l) ∧ s.cellFilled < 9) ∧
    (s.winner = some "X" → ∃ l ∈ lines3, LineHolds s.grid l "X") ∧
    (s.winner = some "O" → ∃ l ∈ lines3, LineHolds s.grid l "O") ∧
    (s.winner = some "Draw" → s.cellFilled = 9 ∧ ¬ ∃ l ∈ lines3, LineComplete s.grid l) ∧
    s.cellFilled ≤ 9 ∧ (s.cellFilled = 9 → s.winner ≠ none) := by
  have hs := reachable_inv hr
  have ht := reachable_tally hr
  have hcur : s.currentPlayer ≠ "" ∧ s.currentPlayer ≠ "Draw" := by
    rcases hs.player with h | h <;> rw [h] <;> decide
  have hmark : ∀ m, m ≠ "Draw" → s.winner = some m → ∃ l ∈ lines3, LineHolds s.grid l m := by
    intro m hm hwm
    rcases ht.decided m hwm with ⟨h1, l, hl, hh⟩ | ⟨h1, _⟩
    · exact ⟨l, hl, by rw [h1]; exact hh⟩
    · exact absurd h1 hm
  refine ⟨⟨fun hw => ⟨?_, ht.progress hw⟩, ?_⟩, hmark "X" (by decide), hmark "O" (by decide),
    ?_, ?_, ?_⟩
  · rintro ⟨l, hl, m, hm, hh⟩
    have := (hs.lineMark l hl m hm hh).1
    rw [hw] at this
    cases this
  · rintro ⟨hno, hlt⟩
    cases hsw : s.winner with
    | none => rfl
    | some w =>
      rcases ht.decided w hsw with ⟨_, l, hl, hh⟩ | ⟨_, h9, _⟩
      · exact absurd ⟨l, hl, s.currentPlayer, hcur.1, hh⟩ hno
      · omega
  · intro hd
    rcases ht.decided "Draw" hd with ⟨h1, _⟩ | ⟨_, h9, hno⟩
    · exact absurd h1.symm hcur.2
    · exact ⟨h9, hno⟩
  · rw [ht.filled]
    exact countText_le_nine (shape_isBoard3 hs.shape) _
  · intro h9 hw
    have := ht.progress hw
    omega

theorem winner_agrees_with_board_witness :
    Reachable lastCellState ∧
    (lastCellState.winner = none ↔
      (¬ ∃ l ∈ lines3, LineComplete lastCellState.grid l) ∧ lastCellState.cellFilled < 9) ∧
    (lastCellState.winner = some "X" → ∃ l ∈ lines3, LineHolds lastCellState.grid l "X") ∧
    (lastCellState.winner = some "O" → ∃ l ∈ lines3, LineHolds lastCellState.grid l "O") ∧
    (lastCellState.winner = some "Draw" →
      lastCellState.cellFilled = 9 ∧ ¬ ∃ l ∈ lines3, LineComplete lastCellState.grid l) ∧
    lastCellState.cellFilled ≤ 9 ∧ (lastCellState.cellFilled = 9 → lastCellState.winner ≠ none) :=
  ⟨lastCellState_reachable, winner_agrees_with_board lastCellState lastCellState_reachable⟩

/-- C17: in every reachable 3x3 state the number of X marks is the number of
O marks or one more; while `winner` is null the two numbers are equal exactly
when currentPlayer is X, and X is one ahead exactly when currentPlayer is O. -/
theorem mark_counts_balanced (s : Game) (hr : Reachable s) :
    (countText (fun t => t == "X") s.grid = countText (fun t => t == "O") s.grid ∨
      countText (fun t => t == "X") s.grid = countText (fun t => t == "O") s.grid + 1) ∧
    (s.winner = none →
      (countText (fun t => t == "X") s.grid = countText (fun t => t == "O") s.grid ↔
        s.currentPlayer = "X") ∧
      (countText (fun t => t == "X") s.grid = countText (fun t => t == "O") s.grid + 1 ↔
        s.currentPlayer = "O")) := by
  have hs := reachable_inv hr
  have hb := (reachable_tally hr).balance
  constructor
  · split_ifs at hb
    · exact Or.inl hb
    · exact Or.inr hb
  · intro hw
    rcases hs.player with h | h
    · simp only [hw, h, true_iff, if_true, add_zero] at hb
      simp [hb, h]
    · have hne : ¬ ("O" = "X") := by decide
      simp only [hw, h, true_iff, hne, if_false] at hb
      simp [hb, h]

theorem mark_counts_balanced_witness :
    Reachable rowGameState ∧
    (countText (fun t => t == "X") rowGameState.grid =
        countText (fun t => t == "O") rowGameState.grid ∨
      countText (fun t => t == "X") rowGameState.grid =
        countText (fun t => t == "O") rowGameState.grid + 1) ∧
    (rowGameState.winner = none →
      (countText (fun t => t == "X") rowGameState.grid =
          countText (fun t => t == "O") rowGameState.grid ↔
        rowGameState.currentPlayer = "X") ∧
      (countText (fun t => t == "X") rowGameState.grid =
          countText (fun t => t == "O") rowGameState.grid + 1 ↔
        rowGameState.currentPlayer = "O")) :=
  ⟨rowGameState_reachable, mark_counts_balanced rowGameState rowGameState_reachable⟩

/-! ## The grid built by the constructor -/

theorem createGrid_length (n : Nat) : (createGrid n).length = n * n := by
  have h : ∀ l : List Nat, ((l.map fun _ => n).sum) = l.length * n := by
    intro l
    induction l with
    | nil => simp
    | cons a l ih => simp only [List.map_cons, List.sum_cons, ih, List.length_cons]; ring
  have hf : (List.length ∘ fun i : Nat =>
      (List.range n).map fun j => ({ x := i, y := j, textContent := "" } : Cell)) =
      fun _ => n := by
    funext i
    simp
  rw [createGrid, List.length_flatMap, hf, h, List.length_range]

theorem populateGrid_row (n i : Nat) (hi : i < n) :
    (populateGrid n)[i]? = some (((createGrid n).drop (i * n)).take n) := by
  simp [populateGrid, List.getElem?_range hi]

theorem createGrid_getElem? (n i j : Nat) (hi : i < n) (hj : j < n) :
    (createGrid n)[i * n + j]? = some { x := i, y := j, textContent := "" } := by
  have h1 := populateGrid_row n i hi
  rw [populateGrid_eq] at h1
  simp only [List.getElem?_map, List.getElem?_range hi, Option.map_some',
    Option.some.injEq] at h1
  have h2 : (((createGrid n).drop (i * n)).take n)[j]? = (createGrid n)[i * n + j]? := by
    rw [List.getElem?_take_of_lt hj, List.getElem?_drop]
  rw [← h2, ← h1]
  simp [List.getElem?_range hj]

theorem shape_new (n : Nat) : HasShape n (new n).grid := by
  simp [HasShape, coords, new, populateGrid_eq, Function.comp_def]

/-- C19: for every grid size `n`, `createGrid` makes `n * n` buttons, the one
at index `i * n + j` carrying the coordinates `(i, j)`; after `populateGrid`
the grid has `n` rows of `n` cells, row `i` is the slice of the buttons from
`i * n`, and `grid[i][j]` is the button created with `(x, y) = (i, j)`.  Hence,
in every grid of that shape, `set(cell.x, cell.y, v)` for the cell at `(i, j)`
writes `v` to that cell, leaves the others, and keeps the shape. -/
theorem grid_cell_has_its_coordinates (n : Nat) :
    (createGrid n).length = n * n ∧
    (new n).grid.length = n ∧ (∀ row ∈ (new n).grid, row.length = n) ∧
    (∀ i j, i < n → j < n →
      (createGrid n)[i * n + j]? = some { x := i, y := j, textContent := "" } ∧
      (new n).grid[i]? = some (((createGrid n).drop (i * n)).take n) ∧
      cellAt (new n).grid i j = some { x := i, y := j, textContent := "" }) ∧
    (∀ (g : Grid) (i j : Nat) (cell : Cell) (v : String),
      HasShape n g → cellAt g i j = some cell →
      cell.x = i ∧ cell.y = j ∧
      ∃ g1, set g cell.x cell.y v = .ok g1 ∧
        cellAt g1 i j = some { cell with textContent := v } ∧
        (∀ r k, ¬ (r = i ∧ k = j) → cellAt g1 r k = cellAt g r k) ∧
        HasShape n g1) := by
  obtain ⟨hlen, hrows⟩ := shape_rows (shape_new n)
  refine ⟨createGrid_length n, hlen, hrows, ?_, ?_⟩
  · intro i j hi hj
    refine ⟨createGrid_getElem? n i j hi hj, populateGrid_row n i hi, ?_⟩
    obtain ⟨c, _, hc⟩ := shape_getCell (shape_new n) hi hj
    obtain ⟨hx, hy⟩ := shape_cellAt (shape_new n) hc
    have ht : c.textContent = "" := by
      have h1 : textAt (new n).grid i j = some c.textContent := by simp [textAt, hc]
      have h2 : new n = reset (new n) := (reset_eq_new n (new n) rfl (shape_new n)).symm
      rw [h2] at h1
      exact reset_textAt _ _ _ _ h1
    rw [hc]
    cases c
    simp only at hx hy ht
    rw [hx, hy, ht]
  · intro g i j cell v hs hc
    obtain ⟨hx, hy⟩ := shape_cellAt hs hc
    obtain ⟨g1, hset, hco, _, _⟩ := set_spec hc v
    have hcells := set_cellAt hc v hset
    refine ⟨hx, hy, g1, by rw [hx, hy]; exact hset, by rw [hcells]; simp, ?_, ?_⟩
    · intro r k hne
      rw [hcells, if_neg hne]
    · unfold HasShape; rw [hco]; exact hs

end TicTacToe
